import Mathlib

/-!
# Verification of the pallet packing engine (`PalletOptimizer`)

Shallow embedding of the TypeScript class `PalletOptimizer`
(`src/utils/palletOptimizer.ts` in the planner app).  JavaScript numbers are
modelled by exact rationals `ℚ`; `Map` objects (which preserve insertion
order) are modelled by association lists; the boolean occupancy grid is
modelled by the finite set of occupied integer cells; the unbounded `while`
loops of `buildPallet` and `optimize` take an explicit fuel parameter and
report fuel exhaustion as an error, so every theorem about a successful
(`Except.ok`) run holds for every fuel value.  `Array.prototype.sort` (a
stable sort in JS) is modelled by a stable insertion sort; for the two
sorts whose comparator is a total preorder (footprint-area ordering) any
stable sort agrees with the engine, and for `pickBestCandidate` (whose
tolerance-based comparator is not transitive) the choice of stable sort is
documented at the definition.
-/

namespace PalletPlanner

/-- Constant `EPSILON` from the source (1e-6). -/
def EPSILON : ℚ := 1 / 1000000

/-- Constant `HEIGHT_TOLERANCE` from the source (1e-3). -/
def HEIGHT_TOLERANCE : ℚ := 1 / 1000

/-- Unit of weight, `'lbs' | 'kg'` in `types.ts`. -/
inductive WeightUnit where
  | lbs
  | kg
deriving DecidableEq, Repr

/-- Record `SKU` from `types.ts` (the fields the engine reads). -/
structure SKU where
  id : String
  name : String
  length : ℚ
  width : ℚ
  height : ℚ
  weight : ℚ
deriving DecidableEq, Repr

/-- Unit type `'each' | 'case'` of an order line. -/
inductive UnitType where
  | each
  | caseOf
deriving DecidableEq, Repr

/-- Record `OrderItem` from `types.ts`. -/
structure OrderItem where
  sku : SKU
  quantity : ℤ
  unitType : UnitType
deriving DecidableEq, Repr

/-- Record `PalletSize` from `types.ts`. -/
structure PalletSize where
  length : ℚ
  width : ℚ
deriving DecidableEq, Repr

/-- Record `PlacedItem` from `types.ts`. -/
structure PlacedItem where
  sku : SKU
  quantity : ℤ
  x : ℚ
  y : ℚ
  width : ℚ
  length : ℚ
  rotated : Bool
deriving DecidableEq, Repr

/-- Record `Layer` from `types.ts`. -/
structure Layer where
  items : List PlacedItem
  height : ℚ
  weight : ℚ
deriving DecidableEq, Repr

/-- Record `Pallet` from `types.ts`. -/
structure Pallet where
  id : ℤ
  layers : List Layer
  totalHeight : ℚ
  totalWeight : ℚ
  palletSize : PalletSize
  freightClass : String
deriving DecidableEq, Repr

/-- Record `OrientationOption` (private interface of the optimizer). -/
structure OrientationOption where
  length : ℚ
  width : ℚ
  height : ℚ
  footprintArea : ℚ
deriving DecidableEq, Repr

/-- Record `PackingItem` (private interface of the optimizer). -/
structure PackingItem where
  sku : SKU
  unitType : UnitType
  remaining : ℤ
  orientations : List OrientationOption
  weight : ℚ
deriving DecidableEq, Repr

/-- Record `LayerQueueItem` (private interface of the optimizer). -/
structure LayerQueueItem where
  sku : SKU
  unitType : UnitType
  weight : ℚ
  remaining : ℤ
  orientationOptions : List OrientationOption
  maxArea : ℚ
deriving DecidableEq, Repr

/-- Record `LayerCandidate` (private interface of the optimizer).  The
`usage : Map<string, number>` becomes an association list in insertion
order. -/
structure LayerCandidate where
  layer : Layer
  usage : List (String × ℤ)
  areaUsed : ℚ
  efficiency : ℚ
  wasteVolume : ℚ
  weightBase : ℚ
  perfectFit : Bool
  perfectlyDivisible : Bool
deriving DecidableEq, Repr

/-- The constructor state of a `PalletOptimizer`: pallet size, max height,
max weight in input units, and the weight unit. -/
structure Config where
  palletSize : PalletSize
  maxHeight : ℚ
  maxWeight : ℚ
  weightUnit : WeightUnit
deriving DecidableEq, Repr

/-- The error outcomes of `optimize`.  `skuExceedsPallet` models the throw in
`initializeInventory`, `unpackableRemainder` the throw in `optimize` when
`buildPallet` returns an empty pallet while inventory remains (it carries
the id of the first remaining item, `none` mirroring the `undefined`
branch), and `outOfFuel` reports that the given fuel did not suffice to
finish the source's unbounded loop. -/
inductive PackError where
  | skuExceedsPallet (skuId : String)
  | unpackableRemainder (skuId : Option String)
  | outOfFuel
deriving DecidableEq, Repr

/-- Method `toBaseWeight`: convert input weight to pounds (kg × 2.20462). -/
def toBaseWeight (cfg : Config) (weight : ℚ) : ℚ :=
  match cfg.weightUnit with
  | .lbs => weight
  | .kg => weight * (220462 / 100000)

/-- Field `this.maxWeightBase` computed in the constructor. -/
def maxWeightBase (cfg : Config) : ℚ := toBaseWeight cfg cfg.maxWeight

/-- Field `this.palletArea` computed in the constructor. -/
def palletArea (cfg : Config) : ℚ := cfg.palletSize.length * cfg.palletSize.width

/-- The constructor's validation: `maxHeight > 0` and `maxWeightBase > 0`
(otherwise it throws `InvalidConfiguration`). -/
def Config.valid (cfg : Config) : Prop :=
  0 < cfg.maxHeight ∧ 0 < maxWeightBase cfg

instance (cfg : Config) : Decidable cfg.valid := by
  unfold Config.valid; infer_instance

/-! ## Generic list helpers (models of JS built-ins) -/

/-- The naturals `x` with `0 ≤ x` and `(x : ℚ) ≤ q`, in increasing order:
the iteration domain of `for (let x = 0; x <= q; x++)`. -/
def natsLe (q : ℚ) : List ℕ := List.range (Int.toNat (⌊q⌋ + 1))

theorem mem_natsLe {q : ℚ} {x : ℕ} : x ∈ natsLe q ↔ (x : ℚ) ≤ q := by
  unfold natsLe
  rw [List.mem_range]
  constructor
  · intro h
    have hx : (x : ℤ) < ⌊q⌋ + 1 := by omega
    have : (x : ℤ) ≤ ⌊q⌋ := by omega
    exact_mod_cast le_trans (by exact_mod_cast Int.cast_le.mpr this) (Int.floor_le q)
  · intro h
    have : (x : ℤ) ≤ ⌊q⌋ := Int.le_floor.mpr (by exact_mod_cast h)
    omega

/-- Insertion step of the stable sort: `a` passes only elements that
strictly precede it (`lt b a = true`) and stops in front of the first
element that does not — in particular in front of every element it ties
with. -/
def insertBy (lt : α → α → Bool) (a : α) : List α → List α
  | [] => [a]
  | b :: l => if lt b a then b :: insertBy lt a l else a :: b :: l

/-- Stable insertion sort, modelling JS `Array.prototype.sort` (stable per
ES2019); `lt a b` means the comparator returns a negative number on
`(a, b)`, i.e. `a` must come strictly before `b`.  The tail is sorted
first and the head then inserted in front of all elements it ties with,
so tied elements keep their original relative order, as the ES2019
stability guarantee requires. -/
def sortBy (lt : α → α → Bool) : List α → List α
  | [] => []
  | a :: l => insertBy lt a (sortBy lt l)

theorem insertBy_perm (lt : α → α → Bool) (a : α) (l : List α) :
    List.Perm (insertBy lt a l) (a :: l) := by
  induction l with
  | nil => simp [insertBy]
  | cons b l ih =>
    simp only [insertBy]
    split
    · exact List.Perm.trans (List.Perm.cons b ih) (List.Perm.swap a b l)
    · exact List.Perm.refl _

theorem sortBy_perm (lt : α → α → Bool) (l : List α) :
    List.Perm (sortBy lt l) l := by
  induction l with
  | nil => simp [sortBy]
  | cons a l ih =>
    exact List.Perm.trans (insertBy_perm lt a (sortBy lt l)) (List.Perm.cons a ih)

theorem mem_sortBy {lt : α → α → Bool} {l : List α} {a : α} :
    a ∈ sortBy lt l ↔ a ∈ l :=
  (sortBy_perm lt l).mem_iff

/-- Characterisation of `List.findSome?` used for the position scan. -/
theorem findSome?_eq_some_imp {f : α → Option β} {l : List α} {b : β}
    (h : l.findSome? f = some b) : ∃ a ∈ l, f a = some b := by
  induction l with
  | nil => simp [List.findSome?] at h
  | cons x l ih =>
    rw [List.findSome?] at h
    cases hx : f x with
    | some v =>
      rw [hx] at h
      exact ⟨x, List.mem_cons_self x l, by simpa [hx] using h⟩
    | none =>
      rw [hx] at h
      obtain ⟨a, ha, hfa⟩ := ih h
      exact ⟨a, List.mem_cons_of_mem x ha, hfa⟩

/-! ## The occupancy grid

`createGrid` builds a `⌈palletSize.length⌉ × ⌈palletSize.width⌉` boolean
array; we model the grid by the `Finset` of occupied cells together with
the two dimensions. -/

/-- Number of grid rows, `Math.ceil(palletSize.length)` (an array length,
hence clamped at 0 for the degenerate negative case). -/
def gridLen (cfg : Config) : ℕ := Int.toNat ⌈cfg.palletSize.length⌉

/-- Number of grid columns, `Math.ceil(palletSize.width)`. -/
def gridWid (cfg : Config) : ℕ := Int.toNat ⌈cfg.palletSize.width⌉

/-- The cells `[⌊x⌋, min(⌈x+length⌉, grid.length)) × [⌊y⌋, min(⌈y+width⌉,
grid[0].length))` that `canPlaceAt` inspects and `markGridOccupied` marks
for a placement at `(x, y)` with footprint `length × width`. -/
def cellsAt (cfg : Config) (x y len wid : ℚ) : Finset (ℕ × ℕ) :=
  Finset.Ico (Int.toNat ⌊x⌋) (min (Int.toNat ⌈x + len⌉) (gridLen cfg)) ×ˢ
    Finset.Ico (Int.toNat ⌊y⌋) (min (Int.toNat ⌈y + wid⌉) (gridWid cfg))

/-- The cell rectangle covered by a `PlacedItem`'s record. -/
def cellsOf (cfg : Config) (p : PlacedItem) : Finset (ℕ × ℕ) :=
  cellsAt cfg p.x p.y p.length p.width

/-- Method `canPlaceAt`: every inspected cell is free. -/
def canPlaceAt (occ : Finset (ℕ × ℕ)) (cfg : Config) (x y len wid : ℚ) : Bool :=
  decide (cellsAt cfg x y len wid ∩ occ = ∅)

/-- Method `markGridOccupied`: mark the same cell rectangle occupied. -/
def markGridOccupied (occ : Finset (ℕ × ℕ)) (cfg : Config) (x y len wid : ℚ) :
    Finset (ℕ × ℕ) :=
  occ ∪ cellsAt cfg x y len wid

/-- Method `findPosition`: scan positions in bottom-left order (`x` outer from 0
while `x ≤ palletSize.length - length`, `y` inner likewise) and return the
first where the footprint fits; `null` when the item exceeds the pallet
beyond `EPSILON`. -/
def findPosition (occ : Finset (ℕ × ℕ)) (cfg : Config) (len wid : ℚ) :
    Option (ℕ × ℕ) :=
  if cfg.palletSize.length + EPSILON < len ∨ cfg.palletSize.width + EPSILON < wid then
    none
  else
    (natsLe (cfg.palletSize.length - len)).findSome? fun (x : ℕ) =>
      (natsLe (cfg.palletSize.width - wid)).findSome? fun (y : ℕ) =>
        if canPlaceAt occ cfg (x : ℚ) (y : ℚ) len wid then some (x, y) else none

/-- Method `findBestPosition`: try the normal orientation, then the 90°-rotated
one; the `Bool` is the `rotated` flag. -/
def findBestPosition (occ : Finset (ℕ × ℕ)) (cfg : Config) (len wid : ℚ) :
    Option (ℕ × ℕ × Bool) :=
  match findPosition occ cfg len wid with
  | some p => some (p.1, p.2, false)
  | none =>
    match findPosition occ cfg wid len with
    | some p => some (p.1, p.2, true)
    | none => none

/-! ## Orientation generation -/

/-- The six `(length, width, height)` permutations `generateOrientationOptions`
enumerates, in source order. -/
def permsOf (sku : SKU) : List (ℚ × ℚ × ℚ) :=
  [ (sku.length, sku.width, sku.height),
    (sku.length, sku.height, sku.width),
    (sku.width, sku.length, sku.height),
    (sku.width, sku.height, sku.length),
    (sku.height, sku.length, sku.width),
    (sku.height, sku.width, sku.length) ]

/-- A dimension rounded for the dedup key: `v.toFixed(3)` is modelled by the
integer `round(v * 1000)`. -/
def key3 (v : ℚ) : ℤ := round (v * 1000)

/-- The two filters of `generateOrientationOptions`: height within the max
(beyond `HEIGHT_TOLERANCE`) and footprint fitting the pallet base in one of
the two axis assignments. -/
def passesFilters (cfg : Config) (t : ℚ × ℚ × ℚ) : Bool :=
  decide (¬ (cfg.maxHeight + HEIGHT_TOLERANCE < t.2.2)) &&
    (decide (t.1 ≤ cfg.palletSize.length + EPSILON ∧
             t.2.1 ≤ cfg.palletSize.width + EPSILON) ||
     decide (t.2.1 ≤ cfg.palletSize.length + EPSILON ∧
             t.1 ≤ cfg.palletSize.width + EPSILON))

/-- Deduplicate a permutation list by its rounded-dimension key, keeping the
first occurrence (the `Map` in the source preserves insertion order), and
build the `OrientationOption` records. -/
def dedupByKey3 : List (ℚ × ℚ × ℚ) → List (ℤ × ℤ × ℤ) → List OrientationOption
  | [], _ => []
  | t :: rest, seen =>
    let k := (key3 t.1, key3 t.2.1, key3 t.2.2)
    if k ∈ seen then dedupByKey3 rest seen
    else ⟨t.1, t.2.1, t.2.2, t.1 * t.2.1⟩ :: dedupByKey3 rest (k :: seen)

/-- Worker of `generateOrientationOptions`: filter and deduplicate in one
pass over the permutations, carrying the set of keys already seen. -/
def genOrientGo (cfg : Config) : List (ℚ × ℚ × ℚ) → List (ℤ × ℤ × ℤ) →
    List OrientationOption
  | [], _ => []
  | t :: rest, seen =>
    if passesFilters cfg t then
      let k := (key3 t.1, key3 t.2.1, key3 t.2.2)
      if k ∈ seen then genOrientGo cfg rest seen
      else ⟨t.1, t.2.1, t.2.2, t.1 * t.2.1⟩ :: genOrientGo cfg rest (k :: seen)
    else genOrientGo cfg rest seen

/-- Method `generateOrientationOptions`: all viable rotations of a SKU, in first-
occurrence order. -/
def generateOrientationOptions (cfg : Config) (sku : SKU) : List OrientationOption :=
  genOrientGo cfg (permsOf sku) []

/-! ## The 2D layer packer -/

/-- Method `findPlacementForOptions`: first orientation (in the given order) for
which a grid position exists. -/
def findPlacementForOptions (occ : Finset (ℕ × ℕ)) (cfg : Config)
    (options : List OrientationOption) :
    Option (OrientationOption × ℕ × ℕ × Bool) :=
  options.findSome? fun o =>
    (findBestPosition occ cfg o.length o.width).map fun p => (o, p)

/-- Step `usage.set(id, (usage.get(id) ?? 0) + 1)` on the insertion-ordered map. -/
def bumpUsage (id : String) : List (String × ℤ) → List (String × ℤ)
  | [] => [(id, 1)]
  | (k, c) :: rest =>
    if k = id then (k, c + 1) :: rest else (k, c) :: bumpUsage id rest

/-- Lookup `usage.get(id) ?? 0`. -/
def lookupUsage (u : List (String × ℤ)) (id : String) : ℤ :=
  match u.find? (fun kv => kv.1 = id) with
  | some kv => kv.2
  | none => 0

/-- Mutable state of one `packLayerForHeight` run: the grid, the placed
items, the usage map and the three accumulators. -/
structure LayerState where
  occ : Finset (ℕ × ℕ)
  placed : List PlacedItem
  usage : List (String × ℤ)
  areaUsed : ℚ
  layerWeightInput : ℚ
  layerWeightBase : ℚ

/-- The inner `while (candidate.remaining > 0)` loop for one queue item:
stop when one more unit would exceed the weight budget beyond `EPSILON` or
no position exists, otherwise place one unit and recurse; the fuel is the
(nonnegative) remaining count, so at most `remaining` units are placed. -/
def placeUnits (cfg : Config) (maxWeightRemainingBase : ℚ) (sku : SKU)
    (weight skuWeightBase : ℚ) (sortedOptions : List OrientationOption) :
    ℕ → LayerState → LayerState
  | 0, st => st
  | n + 1, st =>
    if maxWeightRemainingBase + EPSILON < st.layerWeightBase + skuWeightBase then
      st
    else
      match findPlacementForOptions st.occ cfg sortedOptions with
      | none => st
      | some (o, x, y, rot) =>
        let placedLength := if rot then o.width else o.length
        let placedWidth := if rot then o.length else o.width
        let item : PlacedItem :=
          ⟨sku, 1, (x : ℚ), (y : ℚ), placedWidth, placedLength, rot⟩
        placeUnits cfg maxWeightRemainingBase sku weight skuWeightBase
          sortedOptions n
          { occ := markGridOccupied st.occ cfg (x : ℚ) (y : ℚ) placedLength placedWidth
            placed := st.placed ++ [item]
            usage := bumpUsage sku.id st.usage
            areaUsed := st.areaUsed + placedLength * placedWidth
            layerWeightInput := st.layerWeightInput + weight
            layerWeightBase := st.layerWeightBase + skuWeightBase }

/-- One step of the `for (const candidate of queue)` loop: skip SKUs whose
base weight is not positive, otherwise sort the orientation options by
descending footprint area and run the placement loop. -/
def packQueueItem (cfg : Config) (maxWeightRemainingBase : ℚ)
    (st : LayerState) (q : LayerQueueItem) : LayerState :=
  let skuWeightBase := toBaseWeight cfg q.weight
  if skuWeightBase ≤ 0 then st
  else
    let sortedOptions :=
      sortBy (fun a b : OrientationOption => b.footprintArea < a.footprintArea)
        q.orientationOptions
    placeUnits cfg maxWeightRemainingBase q.sku q.weight skuWeightBase
      sortedOptions q.remaining.toNat st

/-- The queue of `packLayerForHeight`: items with remaining units whose
orientation set contains an option within `HEIGHT_TOLERANCE` of the target
layer height, with the maximal footprint area among those options. -/
def layerQueue (inventory : List PackingItem) (layerHeight : ℚ) :
    List LayerQueueItem :=
  (inventory.filter fun item => decide (0 < item.remaining)).filterMap fun item =>
    match item.orientations.filter
        (fun o => decide (|o.height - layerHeight| ≤ HEIGHT_TOLERANCE)) with
    | [] => none
    | o :: rest =>
      some
        { sku := item.sku
          unitType := item.unitType
          weight := item.weight
          remaining := item.remaining
          orientationOptions := o :: rest
          maxArea := rest.foldl (fun m p => max m p.footprintArea) o.footprintArea }

/-- Method `packLayerForHeight`: pack a candidate layer at a specific target
height, or `null` when the queue is empty or no unit could be placed. -/
def packLayerForHeight (cfg : Config) (inventory : List PackingItem)
    (layerHeight maxHeightRemaining maxWeightRemainingBase : ℚ) :
    Option LayerCandidate :=
  match layerQueue inventory layerHeight with
  | [] => none
  | q0 :: qrest =>
    let queue :=
      sortBy (fun a b : LayerQueueItem => b.maxArea < a.maxArea) (q0 :: qrest)
    let st :=
      queue.foldl (packQueueItem cfg maxWeightRemainingBase)
        ⟨∅, [], [], 0, 0, 0⟩
    if st.placed = [] then none
    else
      let totalArea := palletArea cfg
      some
        { layer := ⟨st.placed, layerHeight, st.layerWeightInput⟩
          usage := st.usage
          areaUsed := st.areaUsed
          efficiency := min 1 (st.areaUsed / totalArea)
          wasteVolume := max 0 ((totalArea - st.areaUsed) * layerHeight)
          weightBase := st.layerWeightBase
          perfectFit := decide (|st.areaUsed - totalArea| ≤ EPSILON)
          perfectlyDivisible :=
            decide (|st.areaUsed - totalArea| ≤ EPSILON) &&
              isDivisible maxHeightRemaining layerHeight }
where
  /-- Method `isDivisible`: the remaining height is an (approximate) integer
  multiple of the layer height. -/
  isDivisible (totalHeight layerHeight : ℚ) : Bool :=
    if layerHeight ≤ HEIGHT_TOLERANCE then false
    else
      decide (|totalHeight / layerHeight - (round (totalHeight / layerHeight) : ℚ)|
        ≤ HEIGHT_TOLERANCE)

/-! ## Layer selection -/

/-- Method `normalizeHeight`: snap a height to the `HEIGHT_TOLERANCE` lattice for
use as a `Map` key. -/
def normalizeHeight (value : ℚ) : ℚ :=
  (round (value / HEIGHT_TOLERANCE) : ℚ) * HEIGHT_TOLERANCE

/-- The insertion-ordered `heightMap`: one representative orientation height
per normalised key, among items with remaining units and heights within the
remaining budget (beyond `HEIGHT_TOLERANCE`). -/
def heightMapOf (inventory : List PackingItem) (maxHeightRemaining : ℚ) :
    List (ℚ × ℚ) :=
  inventory.foldl
    (fun m item =>
      if decide (0 < item.remaining) then
        item.orientations.foldl
          (fun m o =>
            if decide (o.height ≤ maxHeightRemaining + HEIGHT_TOLERANCE) then
              let k := normalizeHeight o.height
              if m.any (fun kv => kv.1 = k) then m else m ++ [(k, o.height)]
            else m)
          m
      else m)
    []

/-- The candidate list of `selectNextLayer`: one attempt per distinct
height, in `heightMap` insertion order. -/
def layerCandidates (cfg : Config) (inventory : List PackingItem)
    (maxHeightRemaining maxWeightRemainingBase : ℚ) : List LayerCandidate :=
  (heightMapOf inventory maxHeightRemaining).filterMap fun kv =>
    packLayerForHeight cfg inventory kv.2 maxHeightRemaining maxWeightRemainingBase

/-- Holds (as `true`) when the comparator of `pickBestCandidate` returns a negative
number on `(a, b)`, i.e. `a` must be ordered strictly before `b`:
efficiency descending, then waste volume ascending, then layer height
descending, then base weight descending, each tier consulted only when all
earlier ones tie within their tolerance. -/
def candBefore (a b : LayerCandidate) : Bool :=
  if EPSILON < |a.efficiency - b.efficiency| then
    decide (b.efficiency < a.efficiency)
  else if EPSILON < |a.wasteVolume - b.wasteVolume| then
    decide (a.wasteVolume < b.wasteVolume)
  else if HEIGHT_TOLERANCE < |a.layer.height - b.layer.height| then
    decide (b.layer.height < a.layer.height)
  else
    decide (b.weightBase < a.weightBase)

/-- Method `pickBestCandidate`: head of the comparator-sorted copy.  The source
uses JS `sort` whose result is engine-defined for this non-transitive
comparator; the stable insertion sort `sortBy` is our concrete model. -/
def pickBestCandidate (candidates : List LayerCandidate) : Option LayerCandidate :=
  (sortBy candBefore candidates).head?

/-- The tier filter of `selectNextLayer`: perfectly divisible candidates
first, then perfect fits, then all candidates. -/
def selectTier (candidates : List LayerCandidate) : List LayerCandidate :=
  match candidates.filter (fun c => c.perfectlyDivisible) with
  | c :: rest => c :: rest
  | [] =>
    match candidates.filter (fun c => c.perfectFit) with
    | c :: rest => c :: rest
    | [] => candidates

/-- Method `selectNextLayer`: no layer when the weight budget is exhausted or no
height is achievable, otherwise the best candidate of the preferred tier. -/
def selectNextLayer (cfg : Config) (inventory : List PackingItem)
    (maxHeightRemaining maxWeightRemainingBase : ℚ) : Option LayerCandidate :=
  if maxWeightRemainingBase ≤ EPSILON then none
  else if heightMapOf inventory maxHeightRemaining = [] then none
  else
    match layerCandidates cfg inventory maxHeightRemaining maxWeightRemainingBase with
    | [] => none
    | c :: rest => pickBestCandidate (selectTier (c :: rest))

/-! ## Pallet building and the optimizer driver -/

/-- Method `calculateFreightClass`: density in lb/ft³ against the fixed
threshold table; the height is floored at `EPSILON` to avoid a division by
zero on an empty pallet. -/
def calculateFreightClass (cfg : Config) (weightInputUnits height : ℚ) : String :=
  let weightLbs :=
    match cfg.weightUnit with
    | .lbs => weightInputUnits
    | .kg => toBaseWeight cfg weightInputUnits
  let volume :=
    cfg.palletSize.length * cfg.palletSize.width * max height EPSILON / 1728
  let density := weightLbs / volume
  if 50 < density then "Class 50"
  else if 35 < density then "Class 55"
  else if 30 < density then "Class 60"
  else if 225 / 10 < density then "Class 65"
  else if 15 < density then "Class 70"
  else if 135 / 10 < density then "Class 77.5"
  else if 12 < density then "Class 85"
  else if 105 / 10 < density then "Class 92.5"
  else if 9 < density then "Class 100"
  else if 8 < density then "Class 110"
  else if 7 < density then "Class 125"
  else if 6 < density then "Class 150"
  else if 5 < density then "Class 175"
  else if 4 < density then "Class 200"
  else if 3 < density then "Class 250"
  else if 2 < density then "Class 300"
  else if 1 < density then "Class 400"
  else "Class 500"

/-- Method `hasRemaining`: some inventory item still has units. -/
def hasRemaining (inventory : List PackingItem) : Bool :=
  inventory.any fun item => decide (0 < item.remaining)

/-- Method `getFirstRemainingItem`. -/
def getFirstRemainingItem (inventory : List PackingItem) : Option PackingItem :=
  inventory.find? fun item => decide (0 < item.remaining)

/-- Step `inventory.find(item => item.sku.id === skuId)` followed by
`remaining = max(0, remaining - count)`: decrement the first inventory
entry carrying the given SKU id, clamped at zero. -/
def decFirst (skuId : String) (count : ℤ) : List PackingItem → List PackingItem
  | [] => []
  | item :: rest =>
    if item.sku.id = skuId then
      { item with remaining := max 0 (item.remaining - count) } :: rest
    else item :: decFirst skuId count rest

/-- The `nextLayer.usage.forEach` decrement loop of `buildPallet`. -/
def applyUsage (inventory : List PackingItem) (usage : List (String × ℤ)) :
    List PackingItem :=
  usage.foldl (fun inv kv => decFirst kv.1 kv.2 inv) inventory

/-- The `while` loop of `buildPallet`, with explicit accumulators and fuel;
`none` means the fuel ran out before the source loop would have stopped. -/
def buildLoop (cfg : Config) (palletId : ℤ) :
    ℕ → List Layer → ℚ → ℚ → ℚ → List PackingItem →
    Option (Pallet × List PackingItem)
  | 0, layers, currentHeight, currentWeightInput, currentWeightBase, inventory =>
    if hasRemaining inventory = true ∧
        ¬ (cfg.maxHeight - currentHeight ≤ HEIGHT_TOLERANCE ∨
           maxWeightBase cfg - currentWeightBase ≤ EPSILON) then
      match selectNextLayer cfg inventory (cfg.maxHeight - currentHeight)
          (maxWeightBase cfg - currentWeightBase) with
      | none =>
        some
          (⟨palletId, layers, currentHeight, currentWeightInput, cfg.palletSize,
             calculateFreightClass cfg currentWeightInput currentHeight⟩, inventory)
      | some _ => none
    else
      some
        (⟨palletId, layers, currentHeight, currentWeightInput, cfg.palletSize,
           calculateFreightClass cfg currentWeightInput currentHeight⟩, inventory)
  | n + 1, layers, currentHeight, currentWeightInput, currentWeightBase, inventory =>
    if hasRemaining inventory = true ∧
        ¬ (cfg.maxHeight - currentHeight ≤ HEIGHT_TOLERANCE ∨
           maxWeightBase cfg - currentWeightBase ≤ EPSILON) then
      match selectNextLayer cfg inventory (cfg.maxHeight - currentHeight)
          (maxWeightBase cfg - currentWeightBase) with
      | none =>
        some
          (⟨palletId, layers, currentHeight, currentWeightInput, cfg.palletSize,
             calculateFreightClass cfg currentWeightInput currentHeight⟩, inventory)
      | some nextLayer =>
        buildLoop cfg palletId n (layers ++ [nextLayer.layer])
          (currentHeight + nextLayer.layer.height)
          (currentWeightInput + nextLayer.layer.weight)
          (currentWeightBase + nextLayer.weightBase)
          (applyUsage inventory nextLayer.usage)
    else
      some
        (⟨palletId, layers, currentHeight, currentWeightInput, cfg.palletSize,
           calculateFreightClass cfg currentWeightInput currentHeight⟩, inventory)

/-- Method `buildPallet`: run the layer loop from the empty pallet. -/
def buildPallet (cfg : Config) (inventory : List PackingItem) (palletId : ℤ)
    (fuel : ℕ) : Option (Pallet × List PackingItem) :=
  buildLoop cfg palletId fuel [] 0 0 0 inventory

/-- Method `initializeInventory`: skip non-positive quantities, throw
`skuExceedsPallet` on the first positive line with no viable orientation,
otherwise record the packing item. -/
def initializeInventory (cfg : Config) :
    List OrderItem → Except PackError (List PackingItem)
  | [] => .ok []
  | item :: rest =>
    if item.quantity ≤ 0 then initializeInventory cfg rest
    else
      match generateOrientationOptions cfg item.sku with
      | [] => .error (.skuExceedsPallet item.sku.id)
      | o :: os =>
        (initializeInventory cfg rest).map
          (⟨item.sku, item.unitType, item.quantity, o :: os, item.sku.weight⟩ :: ·)

/-- The `while (hasRemaining)` loop of `optimize`, with fuel. -/
def optimizeLoop (cfg : Config) :
    ℕ → List PackingItem → ℤ → Except PackError (List Pallet)
  | 0, inventory, _ =>
    if hasRemaining inventory = true then .error .outOfFuel else .ok []
  | n + 1, inventory, palletId =>
    if hasRemaining inventory = true then
      match buildPallet cfg inventory palletId n with
      | none => .error .outOfFuel
      | some (pallet, inventory') =>
        if pallet.layers = [] then
          .error (.unpackableRemainder
            ((getFirstRemainingItem inventory').map fun item => item.sku.id))
        else
          (optimizeLoop cfg n inventory' (palletId + 1)).map (pallet :: ·)
    else .ok []

/-- Method `optimize`: the whole engine, returning the pallet list or the
error thrown, given enough fuel for the source's unbounded loops. -/
def optimize (cfg : Config) (items : List OrderItem) (fuel : ℕ) :
    Except PackError (List Pallet) :=
  match initializeInventory cfg items with
  | .error e => .error e
  | .ok inventory => optimizeLoop cfg fuel inventory 1

/-! ## Counting placed and requested units -/

/-- Sum of `quantity` over the placed items carrying a SKU id. -/
def placedQty (items : List PlacedItem) (id : String) : ℤ :=
  (items.map fun p => if p.sku.id = id then p.quantity else 0).sum

/-- Sum of placed quantities of a SKU id over the layers of one pallet. -/
def palletQty (p : Pallet) (id : String) : ℤ :=
  (p.layers.map fun L => placedQty L.items id).sum

/-- Sum of placed quantities of a SKU id over a pallet list. -/
def palletsQty (ps : List Pallet) (id : String) : ℤ :=
  (ps.map fun p => palletQty p id).sum

/-- Units of a SKU id still in inventory. -/
def remTotal (inventory : List PackingItem) (id : String) : ℤ :=
  (inventory.map fun e => if e.sku.id = id then e.remaining else 0).sum

/-- Total requested quantity of a SKU id over the order lines, lines with
`quantity ≤ 0` contributing zero. -/
def requestedQty (items : List OrderItem) (id : String) : ℤ :=
  (items.map fun it =>
    if 0 < it.quantity then (if it.sku.id = id then it.quantity else 0) else 0).sum

/-- Pound-normalised weight of the units placed on a layer list, i.e. the
sum of placed unit weights converted through `toBaseWeight`. -/
def layersWeightBase (cfg : Config) (layers : List Layer) : ℚ :=
  (layers.map fun L =>
    (L.items.map fun p => toBaseWeight cfg p.sku.weight).sum).sum

/-! ## Geometry lemmas: the grid faithfully separates footprints -/

/-- The union of the cell rectangles of a list of placed items: the set of
occupied grid cells after marking each of them. -/
def occOf (cfg : Config) (ps : List PlacedItem) : Finset (ℕ × ℕ) :=
  ps.foldl (fun acc p => acc ∪ cellsOf cfg p) ∅

theorem occOf_append (cfg : Config) (ps : List PlacedItem) (p : PlacedItem) :
    occOf cfg (ps ++ [p]) = occOf cfg ps ∪ cellsOf cfg p := by
  unfold occOf
  rw [List.foldl_append]
  rfl

theorem subset_foldl_union (cfg : Config) (ps : List PlacedItem)
    (init : Finset (ℕ × ℕ)) :
    init ⊆ ps.foldl (fun acc p => acc ∪ cellsOf cfg p) init := by
  induction ps generalizing init with
  | nil => exact fun a ha => ha
  | cons q ps ih =>
    exact fun a ha => ih (init ∪ cellsOf cfg q) (Finset.mem_union_left _ ha)

theorem mem_foldl_union (cfg : Config) (ps : List PlacedItem)
    (init : Finset (ℕ × ℕ)) {p : PlacedItem} (hp : p ∈ ps) :
    cellsOf cfg p ⊆ ps.foldl (fun acc r => acc ∪ cellsOf cfg r) init := by
  induction ps generalizing init with
  | nil => cases hp
  | cons q ps ih =>
    rcases List.mem_cons.mp hp with h | h
    · subst h
      intro a ha
      exact subset_foldl_union cfg ps _ (Finset.mem_union_right _ ha)
    · exact ih _ h

theorem cells_subset_occOf (cfg : Config) {ps : List PlacedItem} {p : PlacedItem}
    (hp : p ∈ ps) : cellsOf cfg p ⊆ occOf cfg ps :=
  mem_foldl_union cfg ps ∅ hp

/-- Membership of a point of the real footprint in the covered cell set:
the cell of any point of `[x, x+len) × [y, y+wid)` is marked, provided the
footprint lies inside the pallet. -/
theorem rect_point_cell_mem (cfg : Config) {x y len wid a b : ℚ}
    (hx0 : 0 ≤ x) (hy0 : 0 ≤ y)
    (hxL : x + len ≤ cfg.palletSize.length) (hyW : y + wid ≤ cfg.palletSize.width)
    (ha : x ≤ a ∧ a < x + len) (hb : y ≤ b ∧ b < y + wid) :
    (Int.toNat ⌊a⌋, Int.toNat ⌊b⌋) ∈ cellsAt cfg x y len wid := by
  have hfx : (0 : ℤ) ≤ ⌊x⌋ := Int.floor_nonneg.mpr hx0
  have hfy : (0 : ℤ) ≤ ⌊y⌋ := Int.floor_nonneg.mpr hy0
  have hfa : ⌊x⌋ ≤ ⌊a⌋ := Int.floor_le_floor ha.1
  have hfb : ⌊y⌋ ≤ ⌊b⌋ := Int.floor_le_floor hb.1
  have hca : ⌊a⌋ < ⌈x + len⌉ :=
    Int.lt_ceil.mpr (lt_of_le_of_lt (Int.floor_le a) ha.2)
  have hcb : ⌊b⌋ < ⌈y + wid⌉ :=
    Int.lt_ceil.mpr (lt_of_le_of_lt (Int.floor_le b) hb.2)
  have hgx : ⌈x + len⌉ ≤ ⌈cfg.palletSize.length⌉ := Int.ceil_le_ceil hxL
  have hgy : ⌈y + wid⌉ ≤ ⌈cfg.palletSize.width⌉ := Int.ceil_le_ceil hyW
  simp only [cellsAt, Finset.mem_product, Finset.mem_Ico, gridLen, gridWid]
  omega

/-- Two placed items with disjoint covered cell sets and in-pallet bounds
have disjoint real footprints. -/
theorem rect_disjoint_of_cells_disjoint (cfg : Config) {p q : PlacedItem}
    (hp0 : 0 ≤ p.x ∧ 0 ≤ p.y) (hq0 : 0 ≤ q.x ∧ 0 ≤ q.y)
    (hpL : p.x + p.length ≤ cfg.palletSize.length)
    (hpW : p.y + p.width ≤ cfg.palletSize.width)
    (hqL : q.x + q.length ≤ cfg.palletSize.length)
    (hqW : q.y + q.width ≤ cfg.palletSize.width)
    (hdisj : Disjoint (cellsOf cfg p) (cellsOf cfg q)) (a b : ℚ) :
    ¬ ((p.x ≤ a ∧ a < p.x + p.length ∧ p.y ≤ b ∧ b < p.y + p.width) ∧
       (q.x ≤ a ∧ a < q.x + q.length ∧ q.y ≤ b ∧ b < q.y + q.width)) := by
  rintro ⟨⟨hpa1, hpa2, hpb1, hpb2⟩, ⟨hqa1, hqa2, hqb1, hqb2⟩⟩
  have hmp : (Int.toNat ⌊a⌋, Int.toNat ⌊b⌋) ∈ cellsOf cfg p :=
    rect_point_cell_mem cfg hp0.1 hp0.2 hpL hpW ⟨hpa1, hpa2⟩ ⟨hpb1, hpb2⟩
  have hmq : (Int.toNat ⌊a⌋, Int.toNat ⌊b⌋) ∈ cellsOf cfg q :=
    rect_point_cell_mem cfg hq0.1 hq0.2 hqL hqW ⟨hqa1, hqa2⟩ ⟨hqb1, hqb2⟩
  exact Finset.disjoint_left.mp hdisj hmp hmq

/-! ## Placement search lemmas -/

theorem canPlaceAt_iff {occ : Finset (ℕ × ℕ)} {cfg : Config} {x y len wid : ℚ} :
    canPlaceAt occ cfg x y len wid = true ↔ cellsAt cfg x y len wid ∩ occ = ∅ := by
  simp [canPlaceAt]

theorem findPosition_spec {occ : Finset (ℕ × ℕ)} {cfg : Config} {len wid : ℚ}
    {x y : ℕ} (h : findPosition occ cfg len wid = some (x, y)) :
    canPlaceAt occ cfg (x : ℚ) (y : ℚ) len wid = true ∧
      (x : ℚ) + len ≤ cfg.palletSize.length ∧
      (y : ℚ) + wid ≤ cfg.palletSize.width := by
  unfold findPosition at h
  split at h
  · cases h
  · obtain ⟨x', hx', hfy⟩ := findSome?_eq_some_imp h
    obtain ⟨y', hy', hpos⟩ := findSome?_eq_some_imp hfy
    have hxy : x' = x ∧ y' = y := by
      by_cases hc : canPlaceAt occ cfg (x' : ℚ) (y' : ℚ) len wid = true
      · rw [if_pos hc] at hpos
        cases hpos
        exact ⟨rfl, rfl⟩
      · rw [if_neg hc] at hpos
        cases hpos
    obtain ⟨rfl, rfl⟩ := hxy
    have hcan : canPlaceAt occ cfg (x' : ℚ) (y' : ℚ) len wid = true := by
      by_cases hc : canPlaceAt occ cfg (x' : ℚ) (y' : ℚ) len wid = true
      · exact hc
      · rw [if_neg hc] at hpos; cases hpos
    refine ⟨hcan, ?_, ?_⟩
    · have := mem_natsLe.mp hx'
      linarith
    · have := mem_natsLe.mp hy'
      linarith

/-- Specification of `findBestPosition`: the returned position admits the
(possibly rotated) footprint, which then lies inside the pallet. -/
theorem findBestPosition_spec {occ : Finset (ℕ × ℕ)} {cfg : Config} {len wid : ℚ}
    {x y : ℕ} {rot : Bool}
    (h : findBestPosition occ cfg len wid = some (x, y, rot)) :
    canPlaceAt occ cfg (x : ℚ) (y : ℚ) (if rot then wid else len)
        (if rot then len else wid) = true ∧
      (x : ℚ) + (if rot then wid else len) ≤ cfg.palletSize.length ∧
      (y : ℚ) + (if rot then len else wid) ≤ cfg.palletSize.width := by
  unfold findBestPosition at h
  cases h1 : findPosition occ cfg len wid with
  | some p =>
    rw [h1] at h
    simp only [Option.some.injEq, Prod.mk.injEq] at h
    obtain ⟨hx, hy, hrot⟩ := h
    subst hx; subst hy; subst hrot
    have hs := findPosition_spec h1
    simpa using hs
  | none =>
    rw [h1] at h
    cases h2 : findPosition occ cfg wid len with
    | some p =>
      rw [h2] at h
      simp only [Option.some.injEq, Prod.mk.injEq] at h
      obtain ⟨hx, hy, hrot⟩ := h
      subst hx; subst hy; subst hrot
      have hs := findPosition_spec h2
      simpa using hs
    | none => rw [h2] at h; cases h

theorem findPlacementForOptions_spec {occ : Finset (ℕ × ℕ)} {cfg : Config}
    {options : List OrientationOption} {o : OrientationOption} {x y : ℕ}
    {rot : Bool}
    (h : findPlacementForOptions occ cfg options = some (o, x, y, rot)) :
    o ∈ options ∧ findBestPosition occ cfg o.length o.width = some (x, y, rot) := by
  unfold findPlacementForOptions at h
  obtain ⟨o', ho', hmap⟩ := findSome?_eq_some_imp h
  cases hb : findBestPosition occ cfg o'.length o'.width with
  | some p =>
    rw [hb] at hmap
    have hmap' : some (o', p) = some (o, x, y, rot) := hmap
    simp only [Option.some.injEq, Prod.mk.injEq] at hmap'
    obtain ⟨rfl, hp⟩ := hmap'
    rw [hp] at hb
    exact ⟨ho', hb⟩
  | none => rw [hb] at hmap; cases hmap

/-! ## Usage-map accounting -/

theorem lookupUsage_bump (sid : String) (u : List (String × ℤ)) (id : String) :
    lookupUsage (bumpUsage sid u) id =
      lookupUsage u id + if sid = id then 1 else 0 := by
  induction u with
  | nil =>
    by_cases h : sid = id <;> simp [bumpUsage, lookupUsage, List.find?, h]
  | cons kv u ih =>
    obtain ⟨k, c⟩ := kv
    by_cases hk : k = sid
    · subst hk
      by_cases hid : k = id <;>
        simp [bumpUsage, lookupUsage, List.find?, hid]
    · by_cases hid : k = id
      · subst hid
        have : ¬ (sid = k) := fun h => hk h.symm
        simp [bumpUsage, lookupUsage, List.find?, hk, this]
      · simp only [bumpUsage, if_neg hk]
        simpa [lookupUsage, List.find?, hid] using ih

theorem bumpUsage_keys (sid : String) (u : List (String × ℤ)) :
    (bumpUsage sid u).map Prod.fst =
      if sid ∈ u.map Prod.fst then u.map Prod.fst else u.map Prod.fst ++ [sid] := by
  induction u with
  | nil => simp [bumpUsage]
  | cons kv u ih =>
    obtain ⟨k, c⟩ := kv
    by_cases hk : k = sid
    · subst hk
      simp [bumpUsage]
    · have : ¬ sid = k := fun h => hk h.symm
      by_cases hmem : sid ∈ u.map Prod.fst <;>
        simp [bumpUsage, hk, this, hmem, ih]

theorem bumpUsage_keys_nodup {sid : String} {u : List (String × ℤ)}
    (h : (u.map Prod.fst).Nodup) : ((bumpUsage sid u).map Prod.fst).Nodup := by
  rw [bumpUsage_keys]
  by_cases hmem : sid ∈ u.map Prod.fst
  · simpa [hmem] using h
  · simp only [if_neg hmem]
    simpa [List.nodup_append, hmem] using h

/-! ## Placed-quantity accounting -/

theorem placedQty_append (ps qs : List PlacedItem) (id : String) :
    placedQty (ps ++ qs) id = placedQty ps id + placedQty qs id := by
  simp [placedQty]

theorem placedQty_single (p : PlacedItem) (id : String) :
    placedQty [p] id = if p.sku.id = id then p.quantity else 0 := by
  simp [placedQty]

theorem placedQty_nonneg {ps : List PlacedItem} (h : ∀ p ∈ ps, p.quantity = 1)
    (id : String) : 0 ≤ placedQty ps id := by
  unfold placedQty
  apply List.sum_nonneg
  intro a ha
  obtain ⟨p, hp, rfl⟩ := List.mem_map.mp ha
  have := h p hp
  split <;> omega

theorem placedQty_uniform {ps : List PlacedItem} {sku : SKU}
    (h : ∀ p ∈ ps, p.sku = sku ∧ p.quantity = 1) (id : String) :
    placedQty ps id = if sku.id = id then (ps.length : ℤ) else 0 := by
  induction ps with
  | nil => simp [placedQty]
  | cons p ps ih =>
    have hp := h p (List.mem_cons_self p ps)
    have hps := fun q hq => h q (List.mem_cons_of_mem p hq)
    have : placedQty (p :: ps) id = placedQty [p] id + placedQty ps id := by
      simpa using placedQty_append [p] ps id
    rw [this, placedQty_single, ih hps, hp.1, hp.2]
    split <;> simp [List.length_cons] <;> omega

/-! ## The layer-state invariant -/

/-- Facts holding of every item placed by `packLayerForHeight` with target
height `lh`, against the SKU universe `skus`: single quantity, footprint
inside the pallet, positive base weight, and a generated orientation of
matching height whose base dimensions are the placed ones (possibly
swapped, per the `rotated` flag's construction). -/
def PlacedOK (cfg : Config) (lh : ℚ) (skus : List SKU) (p : PlacedItem) : Prop :=
  p.quantity = 1 ∧ 0 ≤ p.x ∧ 0 ≤ p.y ∧
  p.x + p.length ≤ cfg.palletSize.length ∧
  p.y + p.width ≤ cfg.palletSize.width ∧
  0 < toBaseWeight cfg p.sku.weight ∧ p.sku ∈ skus ∧
  ∃ o ∈ generateOrientationOptions cfg p.sku,
    |o.height - lh| ≤ HEIGHT_TOLERANCE ∧
    ((p.length = o.length ∧ p.width = o.width) ∨
     (p.length = o.width ∧ p.width = o.length))

/-- Invariant of the packing state throughout one `packLayerForHeight`
run. -/
def StInv (cfg : Config) (lh maxWR : ℚ) (skus : List SKU) (st : LayerState) : Prop :=
  st.occ = occOf cfg st.placed ∧
  st.placed.Pairwise (fun p q => Disjoint (cellsOf cfg p) (cellsOf cfg q)) ∧
  (∀ p ∈ st.placed, PlacedOK cfg lh skus p) ∧
  (∀ id, lookupUsage st.usage id = placedQty st.placed id) ∧
  (st.usage.map Prod.fst).Nodup ∧
  st.layerWeightBase = (st.placed.map fun p => toBaseWeight cfg p.sku.weight).sum ∧
  st.layerWeightInput = (st.placed.map fun p => p.sku.weight).sum ∧
  st.layerWeightBase ≤ maxWR + EPSILON

theorem placeUnits_spec (cfg : Config) (lh maxWR : ℚ) (skus : List SKU)
    (sku : SKU) (weight wBase : ℚ) (sortedOptions : List OrientationOption)
    (hw : weight = sku.weight) (hwb : wBase = toBaseWeight cfg weight)
    (hpos : 0 < wBase) (hsku : sku ∈ skus)
    (hopts : ∀ o ∈ sortedOptions, o ∈ generateOrientationOptions cfg sku ∧
      |o.height - lh| ≤ HEIGHT_TOLERANCE) :
    ∀ (n : ℕ) (st : LayerState), StInv cfg lh maxWR skus st →
      StInv cfg lh maxWR skus
        (placeUnits cfg maxWR sku weight wBase sortedOptions n st) ∧
      ∃ new, (placeUnits cfg maxWR sku weight wBase sortedOptions n st).placed =
          st.placed ++ new ∧ new.length ≤ n ∧
          ∀ p ∈ new, p.sku = sku ∧ p.quantity = 1 := by
  intro n
  induction n with
  | zero =>
    intro st hst
    exact ⟨hst, [], by simp [placeUnits], by simp, by simp⟩
  | succ n ih =>
    intro st hst
    rw [placeUnits]
    split
    · exact ⟨hst, [], by simp, by simp, by simp⟩
    · rename_i hwt
      cases hfp : findPlacementForOptions st.occ cfg sortedOptions with
      | none => exact ⟨hst, [], by simp, by simp, by simp⟩
      | some res =>
        obtain ⟨o, x, y, rot⟩ := res
        obtain ⟨hoMem, hbp⟩ := findPlacementForOptions_spec hfp
        have hbs := findBestPosition_spec hbp
        unfold StInv at hst
        obtain ⟨hocc, hpair, hpok, husg, hkeys, hwB, hwI, hbound⟩ := hst
        set pl : ℚ := if rot then o.width else o.length with hplDef
        set pw : ℚ := if rot then o.length else o.width with hpwDef
        set item : PlacedItem := ⟨sku, 1, (x : ℚ), (y : ℚ), pw, pl, rot⟩ with hitem
        have hcells : cellsOf cfg item = cellsAt cfg (x : ℚ) (y : ℚ) pl pw := rfl
        have hcan : cellsAt cfg (x : ℚ) (y : ℚ) pl pw ∩ st.occ = ∅ :=
          canPlaceAt_iff.mp hbs.1
        have hfree : ∀ c ∈ cellsAt cfg (x : ℚ) (y : ℚ) pl pw, c ∉ st.occ := by
          intro c hc hcon
          have : c ∈ cellsAt cfg (x : ℚ) (y : ℚ) pl pw ∩ st.occ :=
            Finset.mem_inter.mpr ⟨hc, hcon⟩
          rw [hcan] at this
          exact absurd this (Finset.not_mem_empty c)
        set st' : LayerState :=
          { occ := markGridOccupied st.occ cfg (x : ℚ) (y : ℚ) pl pw
            placed := st.placed ++ [item]
            usage := bumpUsage sku.id st.usage
            areaUsed := st.areaUsed + pl * pw
            layerWeightInput := st.layerWeightInput + weight
            layerWeightBase := st.layerWeightBase + wBase } with hst'
        have hinv' : StInv cfg lh maxWR skus st' := by
          refine ⟨?_, ?_, ?_, ?_, ?_, ?_, ?_, ?_⟩
          · show markGridOccupied st.occ cfg (x : ℚ) (y : ℚ) pl pw =
              occOf cfg (st.placed ++ [item])
            rw [occOf_append, markGridOccupied, hocc, hcells]
          · show (st.placed ++ [item]).Pairwise _
            rw [List.pairwise_append]
            refine ⟨hpair, by simp, ?_⟩
            intro p hp b hb
            rw [List.mem_singleton] at hb
            subst hb
            rw [hcells]
            rw [Finset.disjoint_right]
            intro c hc
            intro hcp
            exact hfree c hc (hocc ▸ cells_subset_occOf cfg hp hcp)
          · intro p hp
            rcases List.mem_append.mp hp with h | h
            · exact hpok p h
            · rw [List.mem_singleton] at h
              subst h
              refine ⟨rfl, by positivity, by positivity, ?_, ?_, ?_, hsku, ?_⟩
              · simpa [hitem, hplDef] using hbs.2.1
              · simpa [hitem, hpwDef] using hbs.2.2
              · show 0 < toBaseWeight cfg sku.weight
                rw [← hw, ← hwb]
                exact hpos
              · obtain ⟨ho1, ho2⟩ := hopts o hoMem
                refine ⟨o, ho1, ho2, ?_⟩
                cases rot with
                | false => exact Or.inl ⟨by simp [hitem, hplDef], by simp [hitem, hpwDef]⟩
                | true => exact Or.inr ⟨by simp [hitem, hplDef], by simp [hitem, hpwDef]⟩
          · intro id
            show lookupUsage (bumpUsage sku.id st.usage) id =
              placedQty (st.placed ++ [item]) id
            rw [lookupUsage_bump, husg id, placedQty_append, placedQty_single]
          · exact bumpUsage_keys_nodup hkeys
          · show st.layerWeightBase + wBase = _
            rw [List.map_append, List.sum_append, ← hwB]
            simp [hitem, hwb, hw]
          · show st.layerWeightInput + weight = _
            rw [List.map_append, List.sum_append, ← hwI]
            simp [hitem, hw]
          · show st.layerWeightBase + wBase ≤ maxWR + EPSILON
            push_neg at hwt
            exact hwt
        obtain ⟨hres, new, hnew, hlen, hall⟩ := ih st' hinv'
        refine ⟨hres, item :: new, ?_, by simpa using Nat.succ_le_succ hlen, ?_⟩
        · rw [hnew]
          simp [hst']
        · intro p hp
          rcases List.mem_cons.mp hp with h | h
          · subst h
            exact ⟨rfl, rfl⟩
          · exact hall p h

/-! ## Queue-level packing facts -/

/-- Units of a SKU id offered by a queue (the per-item caps of the
placement loops). -/
def queueRem (queue : List LayerQueueItem) (id : String) : ℤ :=
  (queue.map fun q => if q.sku.id = id then (q.remaining.toNat : ℤ) else 0).sum

/-- Well-formedness of a queue item against the current inventory
invariants. -/
def QOK (cfg : Config) (lh : ℚ) (skus : List SKU) (q : LayerQueueItem) : Prop :=
  q.sku ∈ skus ∧ q.weight = q.sku.weight ∧
  ∀ o ∈ q.orientationOptions, o ∈ generateOrientationOptions cfg q.sku ∧
    |o.height - lh| ≤ HEIGHT_TOLERANCE

theorem remTotal_cons (e : PackingItem) (tl : List PackingItem) (id : String) :
    remTotal (e :: tl) id =
      (if e.sku.id = id then e.remaining else 0) + remTotal tl id := by
  simp [remTotal]

theorem queueRem_cons (q : LayerQueueItem) (tl : List LayerQueueItem) (id : String) :
    queueRem (q :: tl) id =
      (if q.sku.id = id then (q.remaining.toNat : ℤ) else 0) + queueRem tl id := by
  simp [queueRem]

theorem queueRem_perm {l l' : List LayerQueueItem} (h : List.Perm l l')
    (id : String) : queueRem l id = queueRem l' id :=
  List.Perm.sum_eq (List.Perm.map _ h)

theorem packQueueItem_spec (cfg : Config) (lh maxWR : ℚ) (skus : List SKU)
    {q : LayerQueueItem} (hq : QOK cfg lh skus q) (st : LayerState)
    (hst : StInv cfg lh maxWR skus st) :
    StInv cfg lh maxWR skus (packQueueItem cfg maxWR st q) ∧
    ∃ new, (packQueueItem cfg maxWR st q).placed = st.placed ++ new ∧
      new.length ≤ q.remaining.toNat ∧
      ∀ p ∈ new, p.sku = q.sku ∧ p.quantity = 1 := by
  obtain ⟨hsku, hw, hopts⟩ := hq
  by_cases hwle : toBaseWeight cfg q.weight ≤ 0
  · simp only [packQueueItem, if_pos hwle]
    exact ⟨hst, [], by simp, by simp, by simp⟩
  · simp only [packQueueItem, if_neg hwle]
    push_neg at hwle
    exact placeUnits_spec cfg lh maxWR skus q.sku q.weight (toBaseWeight cfg q.weight)
      (sortBy (fun a b : OrientationOption => b.footprintArea < a.footprintArea)
        q.orientationOptions)
      hw rfl hwle hsku
      (fun o ho => hopts o (mem_sortBy.mp ho)) q.remaining.toNat st hst

theorem foldQueue_spec (cfg : Config) (lh maxWR : ℚ) (skus : List SKU) :
    ∀ (queue : List LayerQueueItem) (st : LayerState),
      (∀ q ∈ queue, QOK cfg lh skus q) → StInv cfg lh maxWR skus st →
      StInv cfg lh maxWR skus (queue.foldl (packQueueItem cfg maxWR) st) ∧
      ∀ id, placedQty (queue.foldl (packQueueItem cfg maxWR) st).placed id ≤
        placedQty st.placed id + queueRem queue id := by
  intro queue
  induction queue with
  | nil =>
    intro st _ hst
    exact ⟨hst, fun id => by simp [queueRem]⟩
  | cons q rest ih =>
    intro st hqok hst
    obtain ⟨hst1, new, hnew, hlen, hall⟩ :=
      packQueueItem_spec cfg lh maxWR skus (hqok q (List.mem_cons_self q rest)) st hst
    obtain ⟨hst2, hcount⟩ :=
      ih (packQueueItem cfg maxWR st q) (fun p hp => hqok p (List.mem_cons_of_mem q hp))
        hst1
    refine ⟨hst2, fun id => ?_⟩
    have h1 : placedQty (packQueueItem cfg maxWR st q).placed id =
        placedQty st.placed id + placedQty new id := by
      rw [hnew, placedQty_append]
    have h2 : placedQty new id ≤ if q.sku.id = id then (q.remaining.toNat : ℤ) else 0 := by
      rw [placedQty_uniform hall]
      split
      · exact_mod_cast hlen
      · exact le_refl 0
    calc placedQty ((q :: rest).foldl (packQueueItem cfg maxWR) st).placed id
        ≤ placedQty (packQueueItem cfg maxWR st q).placed id + queueRem rest id := by
          simpa using hcount id
      _ ≤ placedQty st.placed id +
            ((if q.sku.id = id then (q.remaining.toNat : ℤ) else 0) + queueRem rest id) := by
          rw [h1]; omega
      _ = placedQty st.placed id + queueRem (q :: rest) id := by rw [queueRem_cons]

/-- Origin of a queue item: the inventory entry it was built from, with the
orientation options filtered to the target height. -/
theorem layerQueue_mem {inv : List PackingItem} {lh : ℚ} {q : LayerQueueItem}
    (h : q ∈ layerQueue inv lh) :
    ∃ e ∈ inv, 0 < e.remaining ∧ q.sku = e.sku ∧ q.weight = e.weight ∧
      q.remaining = e.remaining ∧
      ∀ o ∈ q.orientationOptions, o ∈ e.orientations ∧
        |o.height - lh| ≤ HEIGHT_TOLERANCE := by
  unfold layerQueue at h
  obtain ⟨e, he, hfe⟩ := List.mem_filterMap.mp h
  obtain ⟨heInv, heRem⟩ := List.mem_filter.mp he
  refine ⟨e, heInv, by simpa using heRem, ?_⟩
  cases hf : e.orientations.filter
      (fun o => decide (|o.height - lh| ≤ HEIGHT_TOLERANCE)) with
  | nil => rw [hf] at hfe; cases hfe
  | cons o rest =>
    rw [hf] at hfe
    simp only [Option.some.injEq] at hfe
    subst hfe
    refine ⟨rfl, rfl, rfl, ?_⟩
    intro o' ho'
    have : o' ∈ e.orientations.filter
        (fun o => decide (|o.height - lh| ≤ HEIGHT_TOLERANCE)) := by
      rw [hf]; exact ho'
    have := List.mem_filter.mp this
    exact ⟨this.1, by simpa using this.2⟩

theorem layerQueue_cons_skip {e : PackingItem} {tl : List PackingItem} {lh : ℚ}
    (hrem : ¬ 0 < e.remaining) :
    layerQueue (e :: tl) lh = layerQueue tl lh := by
  simp [layerQueue, List.filter_cons, hrem]

theorem layerQueue_cons_none {e : PackingItem} {tl : List PackingItem} {lh : ℚ}
    (hrem : 0 < e.remaining)
    (hf : e.orientations.filter
      (fun o => decide (|o.height - lh| ≤ HEIGHT_TOLERANCE)) = []) :
    layerQueue (e :: tl) lh = layerQueue tl lh := by
  simp [layerQueue, List.filter_cons, hrem, List.filterMap_cons, hf]

theorem layerQueue_cons_some {e : PackingItem} {tl : List PackingItem} {lh : ℚ}
    {o : OrientationOption} {rest : List OrientationOption}
    (hrem : 0 < e.remaining)
    (hf : e.orientations.filter
      (fun p => decide (|p.height - lh| ≤ HEIGHT_TOLERANCE)) = o :: rest) :
    layerQueue (e :: tl) lh =
      ⟨e.sku, e.unitType, e.weight, e.remaining, o :: rest,
        rest.foldl (fun m p => max m p.footprintArea) o.footprintArea⟩ ::
        layerQueue tl lh := by
  simp [layerQueue, List.filter_cons, hrem, List.filterMap_cons, hf]

theorem queueRem_le_remTotal {inv : List PackingItem} {lh : ℚ}
    (hnn : ∀ e ∈ inv, 0 ≤ e.remaining) (id : String) :
    queueRem (layerQueue inv lh) id ≤ remTotal inv id := by
  induction inv with
  | nil => simp [layerQueue, queueRem, remTotal]
  | cons e tl ih =>
    have hnn' : ∀ x ∈ tl, 0 ≤ x.remaining := fun x hx => hnn x (List.mem_cons_of_mem e hx)
    have htl := ih hnn'
    have hterm : (0 : ℤ) ≤ if e.sku.id = id then e.remaining else 0 := by
      have := hnn e (List.mem_cons_self e tl)
      split
      · exact this
      · exact le_refl 0
    rw [remTotal_cons]
    by_cases hrem : 0 < e.remaining
    · cases hf : e.orientations.filter
          (fun p => decide (|p.height - lh| ≤ HEIGHT_TOLERANCE)) with
      | nil =>
        rw [layerQueue_cons_none hrem hf]
        omega
      | cons o rest =>
        rw [layerQueue_cons_some hrem hf, queueRem_cons]
        have hhead : (if e.sku.id = id then ((e.remaining.toNat : ℤ)) else 0) ≤
            (if e.sku.id = id then e.remaining else 0) := by
          split
          · omega
          · exact le_refl 0
        simp only at hhead ⊢
        omega
    · rw [layerQueue_cons_skip hrem]
      omega

/-! ## Specification of `packLayerForHeight` -/

/-- Inventory invariants maintained throughout `optimize`: each entry's
orientation list is the generated one for its SKU and its weight field is
the SKU weight. -/
def InvOK (cfg : Config) (inv : List PackingItem) : Prop :=
  ∀ e ∈ inv, e.orientations = generateOrientationOptions cfg e.sku ∧
    e.weight = e.sku.weight

/-- Everything a produced layer candidate guarantees: homogeneous declared
height, disjoint and in-bounds placements with per-item facts, exact usage
accounting bounded by the inventory, and weight sums within the budget. -/
def CandFacts (cfg : Config) (inv : List PackingItem) (skus : List SKU)
    (lh maxWR : ℚ) (c : LayerCandidate) : Prop :=
  c.layer.height = lh ∧
  c.layer.items.Pairwise (fun p q => Disjoint (cellsOf cfg p) (cellsOf cfg q)) ∧
  (∀ p ∈ c.layer.items, PlacedOK cfg lh skus p) ∧
  (∀ id, lookupUsage c.usage id = placedQty c.layer.items id) ∧
  (c.usage.map Prod.fst).Nodup ∧
  (∀ id, placedQty c.layer.items id ≤ remTotal inv id) ∧
  c.weightBase = (c.layer.items.map fun p => toBaseWeight cfg p.sku.weight).sum ∧
  c.layer.weight = (c.layer.items.map fun p => p.sku.weight).sum ∧
  c.weightBase ≤ maxWR + EPSILON

theorem packLayerForHeight_spec {cfg : Config} {inv : List PackingItem}
    {lh maxHR maxWR : ℚ} {c : LayerCandidate} {skus : List SKU}
    (hskus : ∀ e ∈ inv, e.sku ∈ skus)
    (hinv : InvOK cfg inv)
    (hnn : ∀ e ∈ inv, 0 ≤ e.remaining)
    (hWR : 0 ≤ maxWR)
    (h : packLayerForHeight cfg inv lh maxHR maxWR = some c) :
    CandFacts cfg inv skus lh maxWR c := by
  unfold packLayerForHeight at h
  cases hq : layerQueue inv lh with
  | nil => rw [hq] at h; cases h
  | cons q0 qrest =>
    rw [hq] at h
    simp only [] at h
    have hqok : ∀ q ∈ sortBy (fun a b : LayerQueueItem => b.maxArea < a.maxArea)
        (q0 :: qrest), QOK cfg lh skus q := by
      intro q hqmem
      have : q ∈ layerQueue inv lh := by
        rw [hq]; exact mem_sortBy.mp hqmem
      obtain ⟨e, heInv, _, hsku, hwt, _, hopts⟩ := layerQueue_mem this
      refine ⟨hsku ▸ hskus e heInv, by rw [hwt, hsku, (hinv e heInv).2], ?_⟩
      intro o ho
      obtain ⟨ho1, ho2⟩ := hopts o ho
      exact ⟨hsku ▸ ((hinv e heInv).1 ▸ ho1), ho2⟩
    have hst0 : StInv cfg lh maxWR skus ⟨∅, [], [], 0, 0, 0⟩ := by
      refine ⟨rfl, List.Pairwise.nil, ?_, ?_, List.nodup_nil, rfl, rfl, ?_⟩
      · intro p hp; cases hp
      · intro id; simp [lookupUsage, placedQty, List.find?]
      · have : (0 : ℚ) < EPSILON := by norm_num [EPSILON]
        dsimp only
        linarith
    obtain ⟨hstInv, hcount⟩ :=
      foldQueue_spec cfg lh maxWR skus _ _ hqok hst0
    set st := (sortBy (fun a b : LayerQueueItem => b.maxArea < a.maxArea)
        (q0 :: qrest)).foldl (packQueueItem cfg maxWR) ⟨∅, [], [], 0, 0, 0⟩ with hstDef
    split at h
    · cases h
    · simp only [Option.some.injEq] at h
      subst h
      obtain ⟨hocc, hpair, hpok, husg, hkeys, hwB, hwI, hbound⟩ := hstInv
      refine ⟨rfl, hpair, hpok, husg, hkeys, ?_, hwB, hwI, hbound⟩
      intro id
      have h1 := hcount id
      have h2 : queueRem (sortBy (fun a b : LayerQueueItem => b.maxArea < a.maxArea)
          (q0 :: qrest)) id = queueRem (layerQueue inv lh) id := by
        rw [hq]
        exact queueRem_perm (sortBy_perm _ _) id
      have h3 := @queueRem_le_remTotal _ lh hnn id
      have h4 : placedQty ([] : List PlacedItem) id = 0 := by simp [placedQty]
      calc placedQty st.placed id ≤
          placedQty ([] : List PlacedItem) id + queueRem (layerQueue inv lh) id := by
            rw [← h2]; exact h1
        _ ≤ remTotal inv id := by omega

/-! ## Specification of `selectNextLayer` -/

theorem foldl_pres {α β : Type _} (P : β → Prop) (f : β → α → β)
    (hf : ∀ b a, P b → P (f b a)) : ∀ (l : List α) (b : β), P b → P (l.foldl f b) := by
  intro l
  induction l with
  | nil => intro b hb; exact hb
  | cons a l ih => intro b hb; exact ih (f b a) (hf b a hb)

theorem heightMapOf_bound {inv : List PackingItem} {maxHR : ℚ} :
    ∀ kv ∈ heightMapOf inv maxHR, kv.2 ≤ maxHR + HEIGHT_TOLERANCE := by
  unfold heightMapOf
  apply foldl_pres (fun m : List (ℚ × ℚ) => ∀ kv ∈ m, kv.2 ≤ maxHR + HEIGHT_TOLERANCE)
  · intro m item hm
    split
    · apply foldl_pres
        (fun m : List (ℚ × ℚ) => ∀ kv ∈ m, kv.2 ≤ maxHR + HEIGHT_TOLERANCE)
      · intro m' o hm'
        split
        · rename_i hcond
          dsimp only
          split
          · exact hm'
          · intro kv hkv
            rcases List.mem_append.mp hkv with h | h
            · exact hm' kv h
            · rw [List.mem_singleton] at h
              subst h
              simpa using hcond
        · exact hm'
      · exact hm
    · exact hm
  · intro kv hkv
    cases hkv

theorem pickBestCandidate_mem {l : List LayerCandidate} {c : LayerCandidate}
    (h : pickBestCandidate l = some c) : c ∈ l := by
  unfold pickBestCandidate at h
  cases hs : sortBy candBefore l with
  | nil => rw [hs] at h; cases h
  | cons a t =>
    rw [hs] at h
    simp only [List.head?] at h
    have : a = c := by simpa using h
    subst this
    have : a ∈ sortBy candBefore l := by rw [hs]; exact List.mem_cons_self a t
    exact mem_sortBy.mp this

theorem selectTier_subset {l : List LayerCandidate} {c : LayerCandidate}
    (h : c ∈ selectTier l) : c ∈ l := by
  unfold selectTier at h
  split at h
  · rename_i heq
    exact List.mem_of_mem_filter (heq ▸ h)
  · split at h
    · rename_i heq
      exact List.mem_of_mem_filter (heq ▸ h)
    · exact h

theorem selectNextLayer_cases {cfg : Config} {inv : List PackingItem}
    {maxHR maxWR : ℚ} {c : LayerCandidate}
    (h : selectNextLayer cfg inv maxHR maxWR = some c) :
    EPSILON < maxWR ∧ c ∈ selectTier (layerCandidates cfg inv maxHR maxWR) := by
  unfold selectNextLayer at h
  split at h
  · cases h
  · rename_i hWR
    push_neg at hWR
    split at h
    · cases h
    · refine ⟨hWR, ?_⟩
      cases hlc : layerCandidates cfg inv maxHR maxWR with
      | nil => rw [hlc] at h; cases h
      | cons c0 rest =>
        rw [hlc] at h
        have h' : pickBestCandidate (selectTier (c0 :: rest)) = some c := h
        exact pickBestCandidate_mem h'

theorem selectNextLayer_spec {cfg : Config} {inv : List PackingItem}
    {maxHR maxWR : ℚ} {c : LayerCandidate} {skus : List SKU}
    (hskus : ∀ e ∈ inv, e.sku ∈ skus)
    (hinv : InvOK cfg inv)
    (hnn : ∀ e ∈ inv, 0 ≤ e.remaining)
    (h : selectNextLayer cfg inv maxHR maxWR = some c) :
    ∃ lh, CandFacts cfg inv skus lh maxWR c ∧ lh ≤ maxHR + HEIGHT_TOLERANCE := by
  obtain ⟨hWR, hmem⟩ := selectNextLayer_cases h
  have hcand : c ∈ layerCandidates cfg inv maxHR maxWR := selectTier_subset hmem
  obtain ⟨kv, hkv, hpack⟩ := List.mem_filterMap.mp hcand
  have hWR0 : (0 : ℚ) ≤ maxWR := by
    have : (0 : ℚ) < EPSILON := by norm_num [EPSILON]
    linarith
  exact ⟨kv.2, packLayerForHeight_spec hskus hinv hnn hWR0 hpack,
    heightMapOf_bound kv hkv⟩

/-! ## Inventory decrement lemmas -/

/-- The immutable part of a packing item (everything but `remaining`). -/
def skel (e : PackingItem) : SKU × UnitType × List OrientationOption × ℚ :=
  (e.sku, e.unitType, e.orientations, e.weight)

/-- Pairwise-distinct SKU ids in the inventory. -/
def NodupIds (inv : List PackingItem) : Prop :=
  (inv.map fun e => e.sku.id).Nodup

theorem lookupUsage_cons (k : String) (cnt : ℤ) (u : List (String × ℤ))
    (id : String) :
    lookupUsage ((k, cnt) :: u) id = if k = id then cnt else lookupUsage u id := by
  by_cases h : k = id <;> simp [lookupUsage, List.find?, h]

theorem lookupUsage_eq_zero {u : List (String × ℤ)} {id : String}
    (h : id ∉ u.map Prod.fst) : lookupUsage u id = 0 := by
  induction u with
  | nil => simp [lookupUsage, List.find?]
  | cons kv u ih =>
    obtain ⟨k, cnt⟩ := kv
    simp only [List.map_cons, List.mem_cons] at h
    push_neg at h
    rw [lookupUsage_cons, if_neg (fun hk => h.1 hk.symm)]
    exact ih h.2

theorem remTotal_eq_zero {inv : List PackingItem} {id : String}
    (h : id ∉ inv.map fun e => e.sku.id) : remTotal inv id = 0 := by
  induction inv with
  | nil => simp [remTotal]
  | cons e tl ih =>
    simp only [List.map_cons, List.mem_cons] at h
    push_neg at h
    rw [remTotal_cons, if_neg (fun hk => h.1 hk.symm), ih h.2]
    ring

theorem decFirst_skel (k : String) (cnt : ℤ) (inv : List PackingItem) :
    (decFirst k cnt inv).map skel = inv.map skel := by
  induction inv with
  | nil => rfl
  | cons e tl ih =>
    unfold decFirst
    split
    · simp [skel]
    · simp only [List.map_cons, ih]

theorem decFirst_nonneg {k : String} {cnt : ℤ} {inv : List PackingItem}
    (h : ∀ e ∈ inv, 0 ≤ e.remaining) :
    ∀ e ∈ decFirst k cnt inv, 0 ≤ e.remaining := by
  induction inv with
  | nil => intro e he; cases he
  | cons e tl ih =>
    unfold decFirst
    split
    · intro e' he'
      rcases List.mem_cons.mp he' with h' | h'
      · subst h'
        simp only [le_max_iff]
        left
        rfl
      · exact h e' (List.mem_cons_of_mem _ h')
    · intro e' he'
      rcases List.mem_cons.mp he' with h' | h'
      · subst h'
        exact h e' (List.mem_cons_self _ _)
      · exact ih (fun x hx => h x (List.mem_cons_of_mem _ hx)) e' h'

theorem decFirst_remTotal {k : String} {cnt : ℤ} {inv : List PackingItem}
    (hnd : NodupIds inv) (hc0 : 0 ≤ cnt) (hcle : cnt ≤ remTotal inv k)
    (id : String) :
    remTotal (decFirst k cnt inv) id =
      remTotal inv id - (if k = id then cnt else 0) := by
  induction inv with
  | nil =>
    simp only [remTotal, List.map_nil, List.sum_nil] at hcle ⊢
    have : cnt = 0 := le_antisymm hcle hc0
    subst this
    simp [decFirst, remTotal]
  | cons e tl ih =>
    unfold NodupIds at hnd
    rw [List.map_cons, List.nodup_cons] at hnd
    obtain ⟨hnotin, hnd'⟩ := hnd
    unfold decFirst
    split
    · rename_i heid
      have htl0 : remTotal tl k = 0 := by
        apply remTotal_eq_zero
        rw [← heid]
        exact hnotin
      have hek : remTotal (e :: tl) k = e.remaining := by
        rw [remTotal_cons, if_pos heid, htl0]
        ring
      have hcleE : cnt ≤ e.remaining := hek ▸ hcle
      have hmax : max 0 (e.remaining - cnt) = e.remaining - cnt := by
        rw [max_eq_right]
        omega
      rw [remTotal_cons, remTotal_cons]
      simp only [hmax]
      by_cases hid : k = id
      · subst hid
        rw [if_pos heid, if_pos heid, if_pos rfl]
        ring
      · have : ¬ e.sku.id = id := heid ▸ hid
        rw [if_neg this, if_neg this, if_neg hid]
        ring
    · rename_i heid
      have hcle' : cnt ≤ remTotal tl k := by
        rw [remTotal_cons, if_neg heid] at hcle
        omega
      rw [remTotal_cons, remTotal_cons, ih hnd' hcle']
      ring

theorem applyUsage_skel (inv : List PackingItem) (u : List (String × ℤ)) :
    (applyUsage inv u).map skel = inv.map skel := by
  induction u generalizing inv with
  | nil => rfl
  | cons kv u ih =>
    unfold applyUsage
    rw [List.foldl_cons]
    have := ih (decFirst kv.1 kv.2 inv)
    unfold applyUsage at this
    rw [this, decFirst_skel]

theorem applyUsage_nonneg {inv : List PackingItem} {u : List (String × ℤ)}
    (h : ∀ e ∈ inv, 0 ≤ e.remaining) :
    ∀ e ∈ applyUsage inv u, 0 ≤ e.remaining := by
  induction u generalizing inv with
  | nil => exact h
  | cons kv u ih =>
    unfold applyUsage
    rw [List.foldl_cons]
    exact ih (decFirst_nonneg h)

theorem nodupIds_of_skel {inv inv' : List PackingItem}
    (h : inv'.map skel = inv.map skel) (hnd : NodupIds inv) : NodupIds inv' := by
  unfold NodupIds at hnd ⊢
  have h1 : inv'.map (fun e => e.sku.id) =
      (inv'.map skel).map (fun t => t.1.id) := by
    rw [List.map_map]; rfl
  have h2 : inv.map (fun e => e.sku.id) =
      (inv.map skel).map (fun t => t.1.id) := by
    rw [List.map_map]; rfl
  rw [h1, h, ← h2]
  exact hnd

theorem mem_skel_transfer {inv inv' : List PackingItem}
    (h : inv'.map skel = inv.map skel) {e : PackingItem} (he : e ∈ inv') :
    ∃ e₀ ∈ inv, e₀.sku = e.sku ∧ e₀.unitType = e.unitType ∧
      e₀.orientations = e.orientations ∧ e₀.weight = e.weight := by
  have : skel e ∈ inv.map skel := h ▸ List.mem_map_of_mem skel he
  obtain ⟨e₀, he₀, hskel⟩ := List.mem_map.mp this
  unfold skel at hskel
  refine ⟨e₀, he₀, ?_, ?_, ?_, ?_⟩ <;>
    simp only [Prod.mk.injEq] at hskel <;> tauto

theorem invOK_of_skel {cfg : Config} {inv inv' : List PackingItem}
    (h : inv'.map skel = inv.map skel) (hok : InvOK cfg inv) : InvOK cfg inv' := by
  intro e he
  obtain ⟨e₀, he₀, hsku, _, hor, hwt⟩ := mem_skel_transfer h he
  obtain ⟨h1, h2⟩ := hok e₀ he₀
  exact ⟨hor ▸ hsku ▸ h1, hwt ▸ hsku ▸ h2⟩

theorem skus_of_skel {skus : List SKU} {inv inv' : List PackingItem}
    (h : inv'.map skel = inv.map skel) (hs : ∀ e ∈ inv, e.sku ∈ skus) :
    ∀ e ∈ inv', e.sku ∈ skus := by
  intro e he
  obtain ⟨e₀, he₀, hsku, _, _, _⟩ := mem_skel_transfer h he
  exact hsku ▸ hs e₀ he₀

theorem applyUsage_remTotal {inv : List PackingItem} {u : List (String × ℤ)}
    (hnd : NodupIds inv) (hknd : (u.map Prod.fst).Nodup)
    (hge : ∀ id, 0 ≤ lookupUsage u id)
    (hle : ∀ id, lookupUsage u id ≤ remTotal inv id) (id : String) :
    remTotal (applyUsage inv u) id = remTotal inv id - lookupUsage u id := by
  induction u generalizing inv with
  | nil =>
    simp [applyUsage, lookupUsage, List.find?]
  | cons kv u ih =>
    obtain ⟨k, cnt⟩ := kv
    rw [List.map_cons, List.nodup_cons] at hknd
    obtain ⟨hknotin, hknd'⟩ := hknd
    have hcntEq : lookupUsage ((k, cnt) :: u) k = cnt := by
      rw [lookupUsage_cons, if_pos rfl]
    have hc0 : 0 ≤ cnt := hcntEq ▸ hge k
    have hcle : cnt ≤ remTotal inv k := hcntEq ▸ hle k
    unfold applyUsage
    rw [List.foldl_cons]
    have hrec := @ih (decFirst k cnt inv)
      (nodupIds_of_skel (decFirst_skel k cnt inv) hnd) hknd'
      (fun id' => by
        by_cases hk : id' = k
        · subst hk
          rw [lookupUsage_eq_zero hknotin]
        · have := hge id'
          rw [lookupUsage_cons, if_neg (fun h => hk h.symm)] at this
          exact this)
      (fun id' => by
        rw [decFirst_remTotal hnd hc0 hcle]
        by_cases hk : id' = k
        · subst hk
          rw [lookupUsage_eq_zero hknotin, if_pos rfl]
          omega
        · rw [if_neg (fun h => hk h.symm)]
          have := hle id'
          rw [lookupUsage_cons, if_neg (fun h => hk h.symm)] at this
          omega)
    unfold applyUsage at hrec
    rw [hrec, decFirst_remTotal hnd hc0 hcle, lookupUsage_cons]
    by_cases hk : k = id
    · subst hk
      rw [if_pos rfl, if_pos rfl, lookupUsage_eq_zero hknotin]
      ring
    · rw [if_neg hk, if_neg hk]
      ring

/-! ## Pallet-level invariants -/

/-- A layer as produced by the packer: disjoint cell footprints and
per-item facts tied to the layer's declared height. -/
def GoodLayer (cfg : Config) (skus : List SKU) (L : Layer) : Prop :=
  L.items.Pairwise (fun p q => Disjoint (cellsOf cfg p) (cellsOf cfg q)) ∧
  ∀ p ∈ L.items, PlacedOK cfg L.height skus p

/-- A pallet as produced by `buildPallet`: height and normalised weight
within budget (up to the tolerances), freight class computed from its own
totals, and every layer well formed. -/
def GoodPallet (cfg : Config) (skus : List SKU) (p : Pallet) : Prop :=
  p.totalHeight ≤ cfg.maxHeight + HEIGHT_TOLERANCE ∧
  layersWeightBase cfg p.layers ≤ maxWeightBase cfg + EPSILON ∧
  p.freightClass = calculateFreightClass cfg p.totalWeight p.totalHeight ∧
  p.palletSize = cfg.palletSize ∧
  ∀ L ∈ p.layers, GoodLayer cfg skus L

theorem layersWeightBase_append (cfg : Config) (l1 l2 : List Layer) :
    layersWeightBase cfg (l1 ++ l2) =
      layersWeightBase cfg l1 + layersWeightBase cfg l2 := by
  simp [layersWeightBase]

theorem layersQty_append (l1 l2 : List Layer) (id : String) :
    ((l1 ++ l2).map fun L => placedQty L.items id).sum =
      (l1.map fun L => placedQty L.items id).sum +
        (l2.map fun L => placedQty L.items id).sum := by
  simp

theorem buildLoop_spec (cfg : Config) (skus : List SKU) (pid : ℤ) :
    ∀ (fuel : ℕ) (layers : List Layer) (curH curWIn curWB : ℚ)
      (inv : List PackingItem) (p : Pallet) (inv' : List PackingItem),
      buildLoop cfg pid fuel layers curH curWIn curWB inv = some (p, inv') →
      (∀ e ∈ inv, e.sku ∈ skus) → InvOK cfg inv →
      (∀ e ∈ inv, 0 ≤ e.remaining) → NodupIds inv →
      curH ≤ cfg.maxHeight + HEIGHT_TOLERANCE →
      curWB ≤ maxWeightBase cfg + EPSILON →
      curWB = layersWeightBase cfg layers →
      (∀ L ∈ layers, GoodLayer cfg skus L) →
      (∃ extra, p.layers = layers ++ extra) ∧
      p.totalHeight ≤ cfg.maxHeight + HEIGHT_TOLERANCE ∧
      layersWeightBase cfg p.layers ≤ maxWeightBase cfg + EPSILON ∧
      p.freightClass = calculateFreightClass cfg p.totalWeight p.totalHeight ∧
      p.palletSize = cfg.palletSize ∧
      (∀ L ∈ p.layers, GoodLayer cfg skus L) ∧
      (∀ id, (p.layers.map fun L => placedQty L.items id).sum + remTotal inv' id =
        (layers.map fun L => placedQty L.items id).sum + remTotal inv id) ∧
      inv'.map skel = inv.map skel ∧
      (∀ e ∈ inv', 0 ≤ e.remaining) ∧
      (p.layers = layers → inv' = inv) := by
  intro fuel
  induction fuel with
  | zero =>
    intro layers curH curWIn curWB inv p inv' h hskus hiok hnn hnd hH hWB hWBeq hGL
    rw [buildLoop] at h
    split at h
    · cases hsel : selectNextLayer cfg inv (cfg.maxHeight - curH)
          (maxWeightBase cfg - curWB) with
      | none =>
        rw [hsel] at h
        simp only [Option.some.injEq, Prod.mk.injEq] at h
        obtain ⟨rfl, rfl⟩ := h
        exact ⟨⟨[], by simp⟩, hH, by simpa [← hWBeq] using hWB, rfl, rfl, hGL,
          fun id => rfl, rfl, hnn, fun _ => rfl⟩
      | some nl => rw [hsel] at h; cases h
    · simp only [Option.some.injEq, Prod.mk.injEq] at h
      obtain ⟨rfl, rfl⟩ := h
      exact ⟨⟨[], by simp⟩, hH, by simpa [← hWBeq] using hWB, rfl, rfl, hGL,
        fun id => rfl, rfl, hnn, fun _ => rfl⟩
  | succ n ih =>
    intro layers curH curWIn curWB inv p inv' h hskus hiok hnn hnd hH hWB hWBeq hGL
    rw [buildLoop] at h
    split at h
    · rename_i hcont
      obtain ⟨hrem, hbud⟩ := hcont
      push_neg at hbud
      obtain ⟨hHbud, hWbud⟩ := hbud
      cases hsel : selectNextLayer cfg inv (cfg.maxHeight - curH)
          (maxWeightBase cfg - curWB) with
      | none =>
        rw [hsel] at h
        simp only [Option.some.injEq, Prod.mk.injEq] at h
        obtain ⟨rfl, rfl⟩ := h
        exact ⟨⟨[], by simp⟩, hH, by simpa [← hWBeq] using hWB, rfl, rfl, hGL,
          fun id => rfl, rfl, hnn, fun _ => rfl⟩
      | some c =>
        rw [hsel] at h
        obtain ⟨lh, hfacts, hlh⟩ := selectNextLayer_spec hskus hiok hnn hsel
        obtain ⟨hheq, hpair, hpok, husg, hkeys, hcnt, hwB, hwI, hwbd⟩ := hfacts
        have hq1 : ∀ q ∈ c.layer.items, q.quantity = 1 := fun q hq => (hpok q hq).1
        have hge : ∀ id, 0 ≤ lookupUsage c.usage id := fun id =>
          husg id ▸ placedQty_nonneg hq1 id
        have hle : ∀ id, lookupUsage c.usage id ≤ remTotal inv id := fun id =>
          husg id ▸ hcnt id
        have hrt : ∀ id, remTotal (applyUsage inv c.usage) id =
            remTotal inv id - placedQty c.layer.items id := fun id => by
          rw [applyUsage_remTotal hnd hkeys hge hle, husg id]
        have hskel1 := applyUsage_skel inv c.usage
        have hGLc : GoodLayer cfg skus c.layer :=
          ⟨hpair, fun q hq => hheq ▸ hpok q hq⟩
        have hres := ih (layers ++ [c.layer]) (curH + c.layer.height)
          (curWIn + c.layer.weight) (curWB + c.weightBase)
          (applyUsage inv c.usage) p inv' h
          (skus_of_skel hskel1 hskus) (invOK_of_skel hskel1 hiok)
          (applyUsage_nonneg hnn) (nodupIds_of_skel hskel1 hnd)
          (by rw [hheq]; linarith)
          (by linarith)
          (by rw [layersWeightBase_append, ← hWBeq, hwB]
              simp [layersWeightBase])
          (by intro L hL
              rcases List.mem_append.mp hL with h' | h'
              · exact hGL L h'
              · rw [List.mem_singleton] at h'
                subst h'
                exact hGLc)
        obtain ⟨⟨extra, hext⟩, hres2, hres3, hres4, hres5, hres6, hres7, hres8,
          hres9, _⟩ := hres
        refine ⟨⟨c.layer :: extra, by rw [hext]; simp⟩, hres2, hres3, hres4, hres5,
          hres6, ?_, hskel1 ▸ hres8, hres9, ?_⟩
        · intro id
          have h7 := hres7 id
          rw [layersQty_append] at h7
          have := hrt id
          simp only [List.map_cons, List.map_nil, List.sum_cons, List.sum_nil] at h7
          omega
        · intro hcontr
          have hlen := congrArg List.length hcontr
          rw [hext] at hlen
          simp at hlen
    · simp only [Option.some.injEq, Prod.mk.injEq] at h
      obtain ⟨rfl, rfl⟩ := h
      exact ⟨⟨[], by simp⟩, hH, by simpa [← hWBeq] using hWB, rfl, rfl, hGL,
        fun id => rfl, rfl, hnn, fun _ => rfl⟩

/-! ## The optimizer loop -/

theorem hasRemaining_eq_false {inv : List PackingItem}
    (h : ¬ hasRemaining inv = true) : ∀ e ∈ inv, ¬ 0 < e.remaining := by
  intro e he hpos
  apply h
  unfold hasRemaining
  rw [List.any_eq_true]
  exact ⟨e, he, by simpa using hpos⟩

theorem remTotal_zero {inv : List PackingItem}
    (hle : ∀ e ∈ inv, ¬ 0 < e.remaining) (hge : ∀ e ∈ inv, 0 ≤ e.remaining)
    (id : String) : remTotal inv id = 0 := by
  unfold remTotal
  apply List.sum_eq_zero
  intro x hx
  obtain ⟨e, he, rfl⟩ := List.mem_map.mp hx
  have h1 := hle e he
  have h2 := hge e he
  split
  · omega
  · rfl

theorem optimizeLoop_spec (cfg : Config) (skus : List SKU) :
    ∀ (fuel : ℕ) (inv : List PackingItem) (pid : ℤ) (ps : List Pallet),
      optimizeLoop cfg fuel inv pid = .ok ps →
      (∀ e ∈ inv, e.sku ∈ skus) → InvOK cfg inv →
      (∀ e ∈ inv, 0 ≤ e.remaining) → NodupIds inv → cfg.valid →
      (∀ p ∈ ps, GoodPallet cfg skus p) ∧
      (∀ id, palletsQty ps id = remTotal inv id) := by
  intro fuel
  induction fuel with
  | zero =>
    intro inv pid ps h hskus hiok hnn hnd hval
    rw [optimizeLoop] at h
    split at h
    · cases h
    · rename_i hnr
      simp only [Except.ok.injEq] at h
      subst h
      refine ⟨fun p hp => absurd hp (List.not_mem_nil p), fun id => ?_⟩
      rw [remTotal_zero (hasRemaining_eq_false hnr) hnn]
      rfl
  | succ n ih =>
    intro inv pid ps h hskus hiok hnn hnd hval
    rw [optimizeLoop] at h
    split at h
    · rename_i hrem
      cases hbp : buildPallet cfg inv pid n with
      | none => rw [hbp] at h; cases h
      | some res =>
        obtain ⟨pallet, inv1⟩ := res
        rw [hbp] at h
        have h' : (if pallet.layers = [] then
              Except.error (PackError.unpackableRemainder
                ((getFirstRemainingItem inv1).map fun item => item.sku.id))
            else (optimizeLoop cfg n inv1 (pid + 1)).map (pallet :: ·)) =
            Except.ok ps := h
        clear h
        split at h'
        · cases h'
        · cases hrec : optimizeLoop cfg n inv1 (pid + 1) with
          | error e => rw [hrec] at h'; cases h'
          | ok tail =>
            rw [hrec] at h'
            simp only [Except.map, Except.ok.injEq] at h'
            subst h'
            have hbl := buildLoop_spec cfg skus pid n [] 0 0 0 inv pallet inv1 hbp
              hskus hiok hnn hnd
              (by have : (0:ℚ) < HEIGHT_TOLERANCE := by norm_num [HEIGHT_TOLERANCE]
                  linarith [hval.1])
              (by have : (0:ℚ) < EPSILON := by norm_num [EPSILON]
                  linarith [hval.2])
              (by simp [layersWeightBase])
              (by intro L hL; cases hL)
            obtain ⟨_, hH, hWB, hFC, hPS, hGLs, hcons, hskel, hnn1, _⟩ := hbl
            obtain ⟨htail1, htail2⟩ := ih inv1 (pid + 1) tail hrec
              (skus_of_skel hskel hskus) (invOK_of_skel hskel hiok)
              hnn1 (nodupIds_of_skel hskel hnd) hval
            refine ⟨?_, ?_⟩
            · intro p hp
              rcases List.mem_cons.mp hp with h' | h'
              · subst h'
                exact ⟨hH, hWB, hFC, hPS, hGLs⟩
              · exact htail1 p h'
            · intro id
              have h1 := hcons id
              simp only [List.map_nil, List.sum_nil] at h1
              have h2 := htail2 id
              unfold palletsQty palletQty
              rw [List.map_cons, List.sum_cons]
              unfold palletsQty palletQty at h2
              omega
    · rename_i hnr
      simp only [Except.ok.injEq] at h
      subst h
      refine ⟨fun p hp => absurd hp (List.not_mem_nil p), fun id => ?_⟩
      rw [remTotal_zero (hasRemaining_eq_false hnr) hnn]
      rfl

/-! ## Duplicate SKU ids block successful termination

`buildPallet` decrements usage against the *first* inventory entry with a
given id (`inventory.find`), so an entry that shadows an earlier one with
the same id is never decremented; since it entered inventory with a
positive quantity, `hasRemaining` never turns false and `optimize` can
never return `ok`. -/

theorem decFirst_split {xs ys : List PackingItem} {e : PackingItem}
    {k : String} {cnt : ℤ}
    (h : e.sku.id ∈ xs.map (fun x => x.sku.id) ∨ k ≠ e.sku.id) :
    ∃ xs' ys', decFirst k cnt (xs ++ e :: ys) = xs' ++ e :: ys' ∧
      xs'.map (fun x => x.sku.id) = xs.map (fun x => x.sku.id) := by
  induction xs with
  | nil =>
    have hk : ¬ e.sku.id = k := by
      rcases h with h | h
      · cases h
      · exact fun hc => h hc.symm
    refine ⟨[], decFirst k cnt ys, ?_, rfl⟩
    simp only [List.nil_append, decFirst, if_neg hk]
  | cons x xs ih =>
    by_cases hx : x.sku.id = k
    · refine ⟨{ x with remaining := max 0 (x.remaining - cnt) } :: xs, ys, ?_, by simp⟩
      simp [decFirst, hx]
    · have h' : e.sku.id ∈ xs.map (fun x => x.sku.id) ∨ k ≠ e.sku.id := by
        rcases h with h | h
        · rw [List.map_cons, List.mem_cons] at h
          rcases h with h | h
          · right
            intro hk
            apply hx
            rw [hk]
            exact h.symm
          · exact Or.inl h
        · exact Or.inr h
      obtain ⟨xs', ys', heq, hids⟩ := ih h'
      refine ⟨x :: xs', ys', ?_, by simp [hids]⟩
      simp [decFirst, hx, heq]

theorem applyUsage_split {e : PackingItem} {u : List (String × ℤ)} :
    ∀ {xs ys : List PackingItem},
      e.sku.id ∈ xs.map (fun x => x.sku.id) →
      ∃ xs' ys', applyUsage (xs ++ e :: ys) u = xs' ++ e :: ys' ∧
        xs'.map (fun x => x.sku.id) = xs.map (fun x => x.sku.id) := by
  induction u with
  | nil =>
    intro xs ys h
    exact ⟨xs, ys, rfl, rfl⟩
  | cons kv u ih =>
    intro xs ys h
    obtain ⟨k, cnt⟩ := kv
    have hsplit : e.sku.id ∈ xs.map (fun x => x.sku.id) ∨ k ≠ e.sku.id := Or.inl h
    obtain ⟨xs1, ys1, heq1, hids1⟩ := @decFirst_split xs ys e k cnt hsplit
    have h1 : e.sku.id ∈ xs1.map (fun x => x.sku.id) := hids1 ▸ h
    obtain ⟨xs2, ys2, heq2, hids2⟩ := @ih xs1 ys1 h1
    refine ⟨xs2, ys2, ?_, hids2.trans hids1⟩
    unfold applyUsage
    rw [List.foldl_cons]
    show applyUsage (decFirst k cnt (xs ++ e :: ys)) u = xs2 ++ e :: ys2
    rw [heq1]
    exact heq2

theorem buildLoop_split (cfg : Config) (pid : ℤ) :
    ∀ (fuel : ℕ) (layers : List Layer) (curH curWIn curWB : ℚ)
      (xs : List PackingItem) (e : PackingItem) (ys : List PackingItem)
      (p : Pallet) (inv' : List PackingItem),
      buildLoop cfg pid fuel layers curH curWIn curWB (xs ++ e :: ys) =
        some (p, inv') →
      e.sku.id ∈ xs.map (fun x => x.sku.id) →
      ∃ xs' ys', inv' = xs' ++ e :: ys' ∧
        xs'.map (fun x => x.sku.id) = xs.map (fun x => x.sku.id) := by
  intro fuel
  induction fuel with
  | zero =>
    intro layers curH curWIn curWB xs e ys p inv' h hmem
    rw [buildLoop] at h
    split at h
    · cases hsel : selectNextLayer cfg (xs ++ e :: ys) (cfg.maxHeight - curH)
          (maxWeightBase cfg - curWB) with
      | none =>
        rw [hsel] at h
        simp only [Option.some.injEq, Prod.mk.injEq] at h
        exact ⟨xs, ys, h.2.symm, rfl⟩
      | some nl => rw [hsel] at h; cases h
    · simp only [Option.some.injEq, Prod.mk.injEq] at h
      exact ⟨xs, ys, h.2.symm, rfl⟩
  | succ n ih =>
    intro layers curH curWIn curWB xs e ys p inv' h hmem
    rw [buildLoop] at h
    split at h
    · cases hsel : selectNextLayer cfg (xs ++ e :: ys) (cfg.maxHeight - curH)
          (maxWeightBase cfg - curWB) with
      | none =>
        rw [hsel] at h
        simp only [Option.some.injEq, Prod.mk.injEq] at h
        exact ⟨xs, ys, h.2.symm, rfl⟩
      | some c =>
        rw [hsel] at h
        have h2 : buildLoop cfg pid n (layers ++ [c.layer]) (curH + c.layer.height)
            (curWIn + c.layer.weight) (curWB + c.weightBase)
            (applyUsage (xs ++ e :: ys) c.usage) = some (p, inv') := h
        obtain ⟨xs1, ys1, heq1, hids1⟩ :=
          @applyUsage_split e c.usage xs ys hmem
        rw [heq1] at h2
        obtain ⟨xs2, ys2, heq2, hids2⟩ := ih _ _ _ _ xs1 e ys1 p inv' h2 (hids1 ▸ hmem)
        exact ⟨xs2, ys2, heq2, hids2.trans hids1⟩
    · simp only [Option.some.injEq, Prod.mk.injEq] at h
      exact ⟨xs, ys, h.2.symm, rfl⟩

theorem not_nodupIds_split {inv : List PackingItem} (h : ¬ NodupIds inv) :
    ∃ xs e ys, inv = xs ++ e :: ys ∧
      e.sku.id ∈ xs.map (fun x => x.sku.id) := by
  induction inv with
  | nil => exact absurd List.nodup_nil h
  | cons a tl ih =>
    unfold NodupIds at h
    rw [List.map_cons, List.nodup_cons] at h
    by_cases hmem : a.sku.id ∈ tl.map (fun x => x.sku.id)
    · obtain ⟨e, he, hid⟩ := List.mem_map.mp hmem
      obtain ⟨l1, l2, rfl⟩ := List.append_of_mem he
      refine ⟨a :: l1, e, l2, rfl, ?_⟩
      rw [List.map_cons, hid, List.mem_cons]
      exact Or.inl rfl
    · have htl : ¬ NodupIds tl := fun hnd => h ⟨hmem, hnd⟩
      obtain ⟨xs, e, ys, rfl, hin⟩ := ih htl
      exact ⟨a :: xs, e, ys, rfl, by
        rw [List.map_cons, List.mem_cons]; exact Or.inr hin⟩

theorem optimizeLoop_stuck (cfg : Config) :
    ∀ (fuel : ℕ) (xs : List PackingItem) (e : PackingItem)
      (ys : List PackingItem) (pid : ℤ) (ps : List Pallet),
      0 < e.remaining →
      optimizeLoop cfg fuel (xs ++ e :: ys) pid = .ok ps →
      e.sku.id ∈ xs.map (fun x => x.sku.id) → False := by
  intro fuel
  induction fuel with
  | zero =>
    intro xs e ys pid ps hpos h hmem
    rw [optimizeLoop] at h
    split at h
    · cases h
    · rename_i hnr
      exact absurd (by simpa using hpos)
        (by simpa using hasRemaining_eq_false hnr e (by simp))
  | succ n ih =>
    intro xs e ys pid ps hpos h hmem
    rw [optimizeLoop] at h
    split at h
    · cases hbp : buildPallet cfg (xs ++ e :: ys) pid n with
      | none => rw [hbp] at h; cases h
      | some res =>
        obtain ⟨pallet, inv1⟩ := res
        rw [hbp] at h
        have h' : (if pallet.layers = [] then
              Except.error (PackError.unpackableRemainder
                ((getFirstRemainingItem inv1).map fun item => item.sku.id))
            else (optimizeLoop cfg n inv1 (pid + 1)).map (pallet :: ·)) =
            Except.ok ps := h
        clear h
        split at h'
        · cases h'
        · cases hrec : optimizeLoop cfg n inv1 (pid + 1) with
          | error er => rw [hrec] at h'; cases h'
          | ok tail =>
            obtain ⟨xs1, ys1, heq1, hids1⟩ :=
              buildLoop_split cfg pid n [] 0 0 0 xs e ys pallet inv1 hbp hmem
            rw [heq1] at hrec
            exact ih xs1 e ys1 (pid + 1) tail hpos hrec (hids1 ▸ hmem)
    · rename_i hnr
      exact absurd (by simpa using hpos)
        (by simpa using hasRemaining_eq_false hnr e (by simp))

theorem optimizeLoop_ok_nodupIds {cfg : Config} {fuel : ℕ}
    {inv : List PackingItem} {pid : ℤ} {ps : List Pallet}
    (h : optimizeLoop cfg fuel inv pid = .ok ps)
    (hpos : ∀ e ∈ inv, 0 < e.remaining) : NodupIds inv := by
  by_contra hnd
  obtain ⟨xs, e, ys, rfl, hmem⟩ := not_nodupIds_split hnd
  exact optimizeLoop_stuck cfg fuel xs e ys pid ps (hpos e (by simp)) h hmem

/-! ## Inventory initialisation -/

theorem initializeInventory_ok {cfg : Config} :
    ∀ {items : List OrderItem} {inv : List PackingItem},
      initializeInventory cfg items = .ok inv →
      InvOK cfg inv ∧ (∀ e ∈ inv, 0 < e.remaining) ∧
      (∀ id, remTotal inv id = requestedQty items id) ∧
      (∀ e ∈ inv, e.sku ∈ items.map (fun it => it.sku)) := by
  intro items
  induction items with
  | nil =>
    intro inv h
    simp only [initializeInventory, Except.ok.injEq] at h
    subst h
    refine ⟨fun e he => absurd he (List.not_mem_nil e),
      fun e he => absurd he (List.not_mem_nil e), fun id => ?_,
      fun e he => absurd he (List.not_mem_nil e)⟩
    simp [remTotal, requestedQty]
  | cons it rest ih =>
    intro inv h
    rw [initializeInventory] at h
    split at h
    · rename_i hqle
      obtain ⟨h1, h2, h3, h4⟩ := ih h
      refine ⟨h1, h2, fun id => ?_, fun e he => List.mem_cons_of_mem _ (h4 e he)⟩
      rw [h3 id]
      unfold requestedQty
      rw [List.map_cons, List.sum_cons, if_neg (by omega)]
      ring
    · rename_i hqgt
      push_neg at hqgt
      cases hg : generateOrientationOptions cfg it.sku with
      | nil => rw [hg] at h; cases h
      | cons o os =>
        rw [hg] at h
        cases hrec : initializeInventory cfg rest with
        | error e => rw [hrec] at h; cases h
        | ok tl =>
          rw [hrec] at h
          simp only [Except.map, Except.ok.injEq] at h
          subst h
          obtain ⟨h1, h2, h3, h4⟩ := ih hrec
          refine ⟨?_, ?_, ?_, ?_⟩
          · intro e he
            rcases List.mem_cons.mp he with h' | h'
            · subst h'
              exact ⟨hg.symm, rfl⟩
            · exact h1 e h'
          · intro e he
            rcases List.mem_cons.mp he with h' | h'
            · subst h'
              exact hqgt
            · exact h2 e h'
          · intro id
            rw [remTotal_cons, h3 id]
            unfold requestedQty
            rw [List.map_cons, List.sum_cons, if_pos hqgt]
          · intro e he
            rcases List.mem_cons.mp he with h' | h'
            · subst h'
              exact List.mem_cons_self _ _
            · exact List.mem_cons_of_mem _ (h4 e h')

/-- Order lines with non-positive quantity are skipped: the inventory (and
hence the whole optimization) of an order equals that of the order with
those lines removed. -/
theorem initializeInventory_filter (cfg : Config) :
    ∀ items : List OrderItem,
      initializeInventory cfg items =
        initializeInventory cfg (items.filter fun it => decide (0 < it.quantity)) := by
  intro items
  induction items with
  | nil => rfl
  | cons it rest ih =>
    rw [List.filter_cons]
    by_cases hq : 0 < it.quantity
    · rw [if_pos (by simpa using hq)]
      rw [initializeInventory, if_neg (by omega), initializeInventory,
        if_neg (by omega), ih]
    · rw [if_neg (by simpa using hq)]
      rw [initializeInventory, if_pos (by omega), ih]

/-- When some positive line's SKU admits no orientation, initialisation
fails with `skuExceedsPallet` naming an offending SKU (the first such
line). -/
theorem initializeInventory_offender {cfg : Config} :
    ∀ {items : List OrderItem},
      (∃ line ∈ items, 0 < line.quantity ∧
        generateOrientationOptions cfg line.sku = []) →
      ∃ line ∈ items, 0 < line.quantity ∧
        generateOrientationOptions cfg line.sku = [] ∧
        initializeInventory cfg items = .error (.skuExceedsPallet line.sku.id) := by
  intro items
  induction items with
  | nil =>
    rintro ⟨line, hline, _⟩
    exact absurd hline (List.not_mem_nil line)
  | cons it rest ih =>
    rintro ⟨line, hline, hpos, hgen⟩
    by_cases hq : it.quantity ≤ 0
    · have hline' : line ∈ rest := by
        rcases List.mem_cons.mp hline with h' | h'
        · subst h'; omega
        · exact h'
      obtain ⟨l2, hl2, hp2, hg2, herr⟩ := ih ⟨line, hline', hpos, hgen⟩
      refine ⟨l2, List.mem_cons_of_mem _ hl2, hp2, hg2, ?_⟩
      rw [initializeInventory, if_pos hq]
      exact herr
    · cases hg : generateOrientationOptions cfg it.sku with
      | nil =>
        refine ⟨it, List.mem_cons_self _ _, by omega, hg, ?_⟩
        rw [initializeInventory, if_neg hq, hg]
      | cons o os =>
        have hline' : line ∈ rest := by
          rcases List.mem_cons.mp hline with h' | h'
          · subst h'
            rw [hgen] at hg
            cases hg
          · exact h'
        obtain ⟨l2, hl2, hp2, hg2, herr⟩ := ih ⟨line, hline', hpos, hgen⟩
        refine ⟨l2, List.mem_cons_of_mem _ hl2, hp2, hg2, ?_⟩
        rw [initializeInventory, if_neg hq, hg, herr]
        rfl

/-! ## Master theorem for successful optimizations -/

theorem optimize_ok_master {cfg : Config} {items : List OrderItem} {fuel : ℕ}
    {ps : List Pallet} (hval : cfg.valid)
    (h : optimize cfg items fuel = .ok ps) :
    (∀ p ∈ ps, GoodPallet cfg (items.map fun it => it.sku) p) ∧
    (∀ id, palletsQty ps id = requestedQty items id) := by
  unfold optimize at h
  cases hinit : initializeInventory cfg items with
  | error e => rw [hinit] at h; cases h
  | ok inv =>
    rw [hinit] at h
    obtain ⟨hiok, hpos, hreq, hskus⟩ := initializeInventory_ok hinit
    have hnd : NodupIds inv := optimizeLoop_ok_nodupIds h hpos
    obtain ⟨hgood, hcons⟩ := optimizeLoop_spec cfg (items.map fun it => it.sku)
      fuel inv 1 ps h hskus hiok (fun e he => le_of_lt (hpos e he)) hnd hval
    exact ⟨hgood, fun id => (hcons id).trans (hreq id)⟩

/-! ## Support lemmas for the error-handling claims -/

/-- The layer list of a built pallet extends the accumulator, and when no
layer was added the inventory was not touched. -/
theorem buildLoop_prefix (cfg : Config) (pid : ℤ) :
    ∀ (fuel : ℕ) (layers : List Layer) (curH curWIn curWB : ℚ)
      (inv : List PackingItem) (p : Pallet) (inv' : List PackingItem),
      buildLoop cfg pid fuel layers curH curWIn curWB inv = some (p, inv') →
      ∃ extra, p.layers = layers ++ extra ∧ (extra = [] → inv' = inv) := by
  intro fuel
  induction fuel with
  | zero =>
    intro layers curH curWIn curWB inv p inv' h
    rw [buildLoop] at h
    split at h
    · cases hsel : selectNextLayer cfg inv (cfg.maxHeight - curH)
          (maxWeightBase cfg - curWB) with
      | none =>
        rw [hsel] at h
        simp only [Option.some.injEq, Prod.mk.injEq] at h
        obtain ⟨rfl, rfl⟩ := h
        exact ⟨[], by simp, fun _ => rfl⟩
      | some nl => rw [hsel] at h; cases h
    · simp only [Option.some.injEq, Prod.mk.injEq] at h
      obtain ⟨rfl, rfl⟩ := h
      exact ⟨[], by simp, fun _ => rfl⟩
  | succ n ih =>
    intro layers curH curWIn curWB inv p inv' h
    rw [buildLoop] at h
    split at h
    · cases hsel : selectNextLayer cfg inv (cfg.maxHeight - curH)
          (maxWeightBase cfg - curWB) with
      | none =>
        rw [hsel] at h
        simp only [Option.some.injEq, Prod.mk.injEq] at h
        obtain ⟨rfl, rfl⟩ := h
        exact ⟨[], by simp, fun _ => rfl⟩
      | some c =>
        rw [hsel] at h
        obtain ⟨extra, hext, _⟩ := ih _ _ _ _ _ p inv' h
        refine ⟨c.layer :: extra, by rw [hext]; simp, fun hcontr => ?_⟩
        cases hcontr
    · simp only [Option.some.injEq, Prod.mk.injEq] at h
      obtain ⟨rfl, rfl⟩ := h
      exact ⟨[], by simp, fun _ => rfl⟩

theorem hasRemaining_find {inv : List PackingItem} (h : hasRemaining inv = true) :
    ∃ e, getFirstRemainingItem inv = some e ∧ 0 < e.remaining ∧ e ∈ inv := by
  unfold hasRemaining at h
  rw [List.any_eq_true] at h
  obtain ⟨e, he, hpos⟩ := h
  have : (getFirstRemainingItem inv).isSome := by
    unfold getFirstRemainingItem
    rw [List.find?_isSome]
    exact ⟨e, he, hpos⟩
  obtain ⟨e', he'⟩ := Option.isSome_iff_exists.mp this
  refine ⟨e', he', ?_, List.mem_of_find?_eq_some he'⟩
  have := List.find?_some he'
  simpa using this

/-- Filtering and deduplicating commute with the fused single pass of
`generateOrientationOptions`. -/
theorem genOrientGo_eq (cfg : Config) :
    ∀ (ts : List (ℚ × ℚ × ℚ)) (seen : List (ℤ × ℤ × ℤ)),
      genOrientGo cfg ts seen = dedupByKey3 (ts.filter (passesFilters cfg)) seen := by
  intro ts
  induction ts with
  | nil => intro seen; rfl
  | cons t rest ih =>
    intro seen
    rw [List.filter_cons]
    by_cases hp : passesFilters cfg t = true
    · rw [if_pos hp]
      rw [genOrientGo, if_pos hp, dedupByKey3]
      by_cases hk : (key3 t.1, key3 t.2.1, key3 t.2.2) ∈ seen
      · rw [if_pos hk, if_pos hk, ih]
      · rw [if_neg hk, if_neg hk, ih]
    · rw [if_neg (by simpa using hp)]
      rw [genOrientGo, if_neg hp, ih]

theorem initializeInventory_mem {cfg : Config} :
    ∀ {items : List OrderItem} {inv : List PackingItem},
      initializeInventory cfg items = .ok inv →
      ∀ {line : OrderItem}, line ∈ items → 0 < line.quantity →
      ∃ e ∈ inv, e.sku = line.sku ∧ e.remaining = line.quantity := by
  intro items
  induction items with
  | nil =>
    intro inv _ line hline
    exact absurd hline (List.not_mem_nil line)
  | cons it rest ih =>
    intro inv h line hline hq
    rw [initializeInventory] at h
    split at h
    · rename_i hqle
      rcases List.mem_cons.mp hline with h' | h'
      · subst h'; omega
      · exact ih h h' hq
    · rename_i hqgt
      cases hg : generateOrientationOptions cfg it.sku with
      | nil => rw [hg] at h; cases h
      | cons o os =>
        rw [hg] at h
        cases hrec : initializeInventory cfg rest with
        | error e => rw [hrec] at h; cases h
        | ok tl =>
          rw [hrec] at h
          simp only [Except.map, Except.ok.injEq] at h
          subst h
          rcases List.mem_cons.mp hline with h' | h'
          · subst h'
            exact ⟨_, List.mem_cons_self _ _, rfl, rfl⟩
          · obtain ⟨e, he, h1, h2⟩ := ih hrec h' hq
            exact ⟨e, List.mem_cons_of_mem _ he, h1, h2⟩

theorem remTotal_ge_mem {inv : List PackingItem} {e : PackingItem}
    (he : e ∈ inv) (hnn : ∀ x ∈ inv, 0 ≤ x.remaining) :
    e.remaining ≤ remTotal inv e.sku.id := by
  induction inv with
  | nil => cases he
  | cons x tl ih =>
    rw [remTotal_cons]
    have hnn' : ∀ y ∈ tl, 0 ≤ y.remaining := fun y hy => hnn y (List.mem_cons_of_mem x hy)
    rcases List.mem_cons.mp he with h' | h'
    · subst h'
      rw [if_pos rfl]
      have : (0 : ℤ) ≤ remTotal tl e.sku.id := by
        unfold remTotal
        apply List.sum_nonneg
        intro a ha
        obtain ⟨y, hy, rfl⟩ := List.mem_map.mp ha
        have := hnn' y hy
        split <;> omega
      omega
    · have := ih h' hnn'
      have hx : (0 : ℤ) ≤ if x.sku.id = e.sku.id then x.remaining else 0 := by
        have := hnn x (List.mem_cons_self x tl)
        split <;> omega
      omega

theorem palletsQty_zero {ps : List Pallet} {id : String}
    (h : ∀ p ∈ ps, ∀ L ∈ p.layers, ∀ it ∈ L.items, it.sku.id ≠ id) :
    palletsQty ps id = 0 := by
  unfold palletsQty
  apply List.sum_eq_zero
  intro a ha
  obtain ⟨p, hp, rfl⟩ := List.mem_map.mp ha
  unfold palletQty
  apply List.sum_eq_zero
  intro b hb
  obtain ⟨L, hL, rfl⟩ := List.mem_map.mp hb
  unfold placedQty
  apply List.sum_eq_zero
  intro c hc
  obtain ⟨it, hit, rfl⟩ := List.mem_map.mp hc
  rw [if_neg (h p hp L hL it hit)]

/-! ## Concrete example inputs for the witnesses -/

deriving instance DecidableEq for Except

instance : Inhabited Pallet :=
  ⟨⟨0, [], 0, 0, ⟨0, 0⟩, ""⟩⟩

instance : Inhabited Layer :=
  ⟨⟨[], 0, 0⟩⟩

instance : Inhabited PlacedItem :=
  ⟨⟨⟨"", "", 0, 0, 0, 0⟩, 0, 0, 0, 0, 0, false⟩⟩

instance : Inhabited LayerCandidate :=
  ⟨⟨⟨[], 0, 0⟩, [], 0, 0, 0, 0, false, false⟩⟩

instance : Inhabited PackingItem :=
  ⟨⟨⟨"", "", 0, 0, 0, 0⟩, .each, 0, [], 0⟩⟩

/-- Example configuration: 2×1 pallet, max height 3, max weight 100 lbs. -/
def exCfg : Config := ⟨⟨2, 1⟩, 3, 100, .lbs⟩

/-- Example SKU: a 1×1×1 box of 2 lbs. -/
def exSku : SKU := ⟨"A", "Box", 1, 1, 1, 2⟩

/-- Example order: two units of the box. -/
def exItems : List OrderItem := [⟨exSku, 2, .each⟩]

/-- Pallets produced on the example order. -/
def exPallets : List Pallet := (optimize exCfg exItems 5).toOption.getD []

/-- The single pallet of the example run. -/
def exPallet : Pallet := exPallets.headD default

/-- The single layer of the example pallet. -/
def exLayer : Layer := exPallet.layers.headD default

/-! ## C1 — conservation (zero leftover) -/

/-- C1: for every order list on which `optimize` returns successfully (under
a constructor-validated configuration), and for every SKU id, the sum of
placed quantities of that id across all layers of all returned pallets
equals the total requested quantity of that id, order lines with
`quantity ≤ 0` contributing zero.  The theorem quantifies over every fuel
value, so it covers every terminating run of the source loop; order lists
in which two positive lines share a SKU id never return successfully (the
by-id inventory decrement then starves one of the entries), so the
conservation equation holds on every successful run even in that case. -/
theorem C1_conservation (cfg : Config) (items : List OrderItem) (fuel : ℕ)
    (ps : List Pallet) (hval : cfg.valid)
    (h : optimize cfg items fuel = .ok ps) (id : String) :
    palletsQty ps id = requestedQty items id :=
  (optimize_ok_master hval h).2 id

theorem C1_conservation_witness :
    palletsQty exPallets "A" = requestedQty exItems "A" :=
  C1_conservation exCfg exItems 5 exPallets (by with_unfolding_all decide) (by with_unfolding_all decide) "A"

/-! ## C2 — height and weight budget bounds -/

/-- C2: every pallet of a successful run satisfies
`totalHeight ≤ maxHeight + HEIGHT_TOLERANCE`, and its pound-normalised
total weight — the sum over all placed units of `toBaseWeight` of the unit
weight — is at most the pound-normalised maximum weight plus `EPSILON`.
The height bound survives accumulation because a layer is only started
while more than `HEIGHT_TOLERANCE` of budget remains and the candidate
height may exceed the remainder by at most `HEIGHT_TOLERANCE`; the weight
bound survives because each placement is guarded by
`layerWeightBase + skuWeightBase > maxWeightRemainingBase + EPSILON`. -/
theorem C2_budget_bounds (cfg : Config) (items : List OrderItem) (fuel : ℕ)
    (ps : List Pallet) (hval : cfg.valid)
    (h : optimize cfg items fuel = .ok ps) :
    ∀ p ∈ ps, p.totalHeight ≤ cfg.maxHeight + HEIGHT_TOLERANCE ∧
      layersWeightBase cfg p.layers ≤ maxWeightBase cfg + EPSILON := by
  intro p hp
  obtain ⟨h1, h2, _, _, _⟩ := (optimize_ok_master hval h).1 p hp
  exact ⟨h1, h2⟩

theorem C2_budget_bounds_witness :
    exPallet.totalHeight ≤ exCfg.maxHeight + HEIGHT_TOLERANCE ∧
      layersWeightBase exCfg exPallet.layers ≤ maxWeightBase exCfg + EPSILON :=
  C2_budget_bounds exCfg exItems 5 exPallets (by with_unfolding_all decide) (by with_unfolding_all decide)
    exPallet (by with_unfolding_all decide)

/-! ## C3 — non-overlap and in-bounds placement -/

/-- Membership of a point in the half-open footprint rectangle
`[x, x+length) × [y, y+width)` of a placed item. -/
def inFootprint (p : PlacedItem) (a b : ℚ) : Prop :=
  p.x ≤ a ∧ a < p.x + p.length ∧ p.y ≤ b ∧ b < p.y + p.width

instance (p : PlacedItem) (a b : ℚ) : Decidable (inFootprint p a b) := by
  unfold inFootprint; infer_instance

/-- C3: in every layer of every pallet of a successful run, each placed
item's footprint lies inside the pallet (`0 ≤ x`, `0 ≤ y`,
`x + length ≤ footprint length`, `y + width ≤ footprint width`), and the
footprint rectangles of two placed items at distinct positions of the
layer share no point.  This is inherited from the integer-cell grid:
`canPlaceAt` demands all ceil-covered cells free and `markGridOccupied`
marks exactly those cells, and each real footprint is covered by its
cells. -/
theorem C3_non_overlap (cfg : Config) (items : List OrderItem) (fuel : ℕ)
    (ps : List Pallet) (hval : cfg.valid)
    (h : optimize cfg items fuel = .ok ps) :
    ∀ p ∈ ps, ∀ L ∈ p.layers,
      (∀ it ∈ L.items, 0 ≤ it.x ∧ 0 ≤ it.y ∧
        it.x + it.length ≤ cfg.palletSize.length ∧
        it.y + it.width ≤ cfg.palletSize.width) ∧
      ∀ i j : Fin L.items.length, i ≠ j → ∀ a b : ℚ,
        ¬ (inFootprint (L.items.get i) a b ∧ inFootprint (L.items.get j) a b) := by
  intro p hp L hL
  obtain ⟨_, _, _, _, hGLs⟩ := (optimize_ok_master hval h).1 p hp
  obtain ⟨hpair, hpok⟩ := hGLs L hL
  have hbounds : ∀ it ∈ L.items, 0 ≤ it.x ∧ 0 ≤ it.y ∧
      it.x + it.length ≤ cfg.palletSize.length ∧
      it.y + it.width ≤ cfg.palletSize.width := by
    intro it hit
    obtain ⟨_, hx, hy, hxl, hyw, _, _, _⟩ := hpok it hit
    exact ⟨hx, hy, hxl, hyw⟩
  refine ⟨hbounds, ?_⟩
  have hget := List.pairwise_iff_get.mp hpair
  intro i j hij a b
  have hdisj : Disjoint (cellsOf cfg (L.items.get i)) (cellsOf cfg (L.items.get j)) := by
    rcases lt_trichotomy i j with hlt | heq | hgt
    · exact hget i j hlt
    · exact absurd heq hij
    · exact (hget j i hgt).symm
  have hbi := hbounds (L.items.get i) (List.get_mem L.items i.1 i.2)
  have hbj := hbounds (L.items.get j) (List.get_mem L.items j.1 j.2)
  have := rect_disjoint_of_cells_disjoint cfg ⟨hbi.1, hbi.2.1⟩ ⟨hbj.1, hbj.2.1⟩
    hbi.2.2.1 hbi.2.2.2 hbj.2.2.1 hbj.2.2.2 hdisj a b
  intro hcon
  exact this ⟨⟨hcon.1.1, hcon.1.2.1, hcon.1.2.2.1, hcon.1.2.2.2⟩,
    ⟨hcon.2.1, hcon.2.2.1, hcon.2.2.2.1, hcon.2.2.2.2⟩⟩

theorem C3_non_overlap_witness :
    (0 ≤ (exLayer.items.headD default).x ∧ 0 ≤ (exLayer.items.headD default).y ∧
      (exLayer.items.headD default).x + (exLayer.items.headD default).length ≤
        exCfg.palletSize.length ∧
      (exLayer.items.headD default).y + (exLayer.items.headD default).width ≤
        exCfg.palletSize.width) ∧
    ¬ (inFootprint (exLayer.items.get ⟨0, by with_unfolding_all decide⟩) (1/2) (1/2) ∧
       inFootprint (exLayer.items.get ⟨1, by with_unfolding_all decide⟩) (1/2) (1/2)) := by
  have hthm := C3_non_overlap exCfg exItems 5 exPallets (by with_unfolding_all decide) (by with_unfolding_all decide)
    exPallet (by with_unfolding_all decide) exLayer (by with_unfolding_all decide)
  refine ⟨?_, ?_⟩
  · exact hthm.1 (exLayer.items.headD default) (by with_unfolding_all decide)
  · exact hthm.2 ⟨0, by with_unfolding_all decide⟩ ⟨1, by with_unfolding_all decide⟩ (by with_unfolding_all decide) (1/2) (1/2)

/-! ## C4 — height homogeneity within a layer -/

/-- C4: every placed item of a layer was placed through one of its SKU's
generated orientations whose height is within `HEIGHT_TOLERANCE` (1e-3) of
the layer's declared height; the placed length/width are that orientation's
base dimensions, possibly swapped (the 90° in-plane rotation). -/
theorem C4_height_homogeneity (cfg : Config) (items : List OrderItem)
    (fuel : ℕ) (ps : List Pallet) (hval : cfg.valid)
    (h : optimize cfg items fuel = .ok ps) :
    ∀ p ∈ ps, ∀ L ∈ p.layers, ∀ it ∈ L.items,
      ∃ o ∈ generateOrientationOptions cfg it.sku,
        |o.height - L.height| ≤ HEIGHT_TOLERANCE ∧
        ((it.length = o.length ∧ it.width = o.width) ∨
         (it.length = o.width ∧ it.width = o.length)) := by
  intro p hp L hL it hit
  obtain ⟨_, _, _, _, hGLs⟩ := (optimize_ok_master hval h).1 p hp
  obtain ⟨_, hpok⟩ := hGLs L hL
  obtain ⟨_, _, _, _, _, _, _, o, ho, hoh, hdims⟩ := hpok it hit
  exact ⟨o, ho, hoh, hdims⟩

theorem C4_height_homogeneity_witness :
    ∃ o ∈ generateOrientationOptions exCfg (exLayer.items.headD default).sku,
      |o.height - exLayer.height| ≤ HEIGHT_TOLERANCE ∧
      (((exLayer.items.headD default).length = o.length ∧
        (exLayer.items.headD default).width = o.width) ∨
       ((exLayer.items.headD default).length = o.width ∧
        (exLayer.items.headD default).width = o.length)) :=
  C4_height_homogeneity exCfg exItems 5 exPallets (by with_unfolding_all decide) (by with_unfolding_all decide)
    exPallet (by with_unfolding_all decide) exLayer (by with_unfolding_all decide) (exLayer.items.headD default)
    (by with_unfolding_all decide)

/-! ## C5 — layer selection hierarchy

The tier structure (perfectly-divisible, then perfect-fit, then all) is
exactly as claimed, and the returned candidate always belongs to the first
non-empty tier.  Maximality within the tier fails, however: the comparator
consults a field only when all earlier fields tie within their tolerances,
and tolerance ties are not transitive, so the comparator can be cyclic; on
the concrete three-SKU order below every candidate is strictly preceded by
another one, hence whatever the sort returns is not maximal. -/

theorem selectNextLayer_eq_pick {cfg : Config} {inv : List PackingItem}
    {maxHR maxWR : ℚ} {c : LayerCandidate}
    (h : selectNextLayer cfg inv maxHR maxWR = some c) :
    pickBestCandidate (selectTier (layerCandidates cfg inv maxHR maxWR)) = some c := by
  unfold selectNextLayer at h
  split at h
  · cases h
  · split at h
    · cases h
    · cases hlc : layerCandidates cfg inv maxHR maxWR with
      | nil => rw [hlc] at h; cases h
      | cons c0 rest =>
        rw [hlc] at h
        exact h

theorem selectTier_pd {l : List LayerCandidate}
    (h : l.filter (fun c => c.perfectlyDivisible) ≠ []) :
    selectTier l = l.filter (fun c => c.perfectlyDivisible) := by
  unfold selectTier
  cases hf : l.filter (fun c => c.perfectlyDivisible) with
  | nil => exact absurd hf h
  | cons a t => rfl

theorem selectTier_pf {l : List LayerCandidate}
    (h1 : l.filter (fun c => c.perfectlyDivisible) = [])
    (h2 : l.filter (fun c => c.perfectFit) ≠ []) :
    selectTier l = l.filter (fun c => c.perfectFit) := by
  unfold selectTier
  rw [h1]
  cases hf : l.filter (fun c => c.perfectFit) with
  | nil => exact absurd hf h2
  | cons a t => rfl

theorem selectTier_all {l : List LayerCandidate}
    (h1 : l.filter (fun c => c.perfectlyDivisible) = [])
    (h2 : l.filter (fun c => c.perfectFit) = []) :
    selectTier l = l := by
  unfold selectTier
  rw [h1, h2]

/-- C5 (amended): whenever `selectNextLayer` produces a candidate, that
candidate belongs to the first non-empty tier — perfectly-divisible
candidates, else perfect fits, else all candidates — and the chosen tier
is exactly the corresponding filter of the candidate list.  Which member
of the tier comes back is not further characterised here: that order is
engine-defined for this non-transitive comparator, and maximality under
the comparator is **not** guaranteed (see `C5_counterexample`). -/
theorem C5_layer_selection_tier (cfg : Config) (inv : List PackingItem)
    (maxHR maxWR : ℚ) (c : LayerCandidate)
    (h : selectNextLayer cfg inv maxHR maxWR = some c) :
    c ∈ selectTier (layerCandidates cfg inv maxHR maxWR) ∧
    ((layerCandidates cfg inv maxHR maxWR).filter
        (fun c => c.perfectlyDivisible) ≠ [] →
      selectTier (layerCandidates cfg inv maxHR maxWR) =
        (layerCandidates cfg inv maxHR maxWR).filter
          (fun c => c.perfectlyDivisible)) ∧
    ((layerCandidates cfg inv maxHR maxWR).filter
        (fun c => c.perfectlyDivisible) = [] →
      (layerCandidates cfg inv maxHR maxWR).filter (fun c => c.perfectFit) ≠ [] →
      selectTier (layerCandidates cfg inv maxHR maxWR) =
        (layerCandidates cfg inv maxHR maxWR).filter (fun c => c.perfectFit)) ∧
    ((layerCandidates cfg inv maxHR maxWR).filter
        (fun c => c.perfectlyDivisible) = [] →
      (layerCandidates cfg inv maxHR maxWR).filter (fun c => c.perfectFit) = [] →
      selectTier (layerCandidates cfg inv maxHR maxWR) =
        layerCandidates cfg inv maxHR maxWR) :=
  ⟨(selectNextLayer_cases h).2,
    fun h1 => selectTier_pd h1, fun h1 h2 => selectTier_pf h1 h2,
    fun h1 h2 => selectTier_all h1 h2⟩

/-- Inventory of the running example, as produced by inventory setup. -/
def exInv : List PackingItem :=
  (initializeInventory exCfg exItems).toOption.getD []

/-- The candidate selected on the running example. -/
def exSel : LayerCandidate := (selectNextLayer exCfg exInv 3 100).getD default

theorem C5_layer_selection_tier_witness :
    exSel ∈ selectTier (layerCandidates exCfg exInv 3 100) ∧
    ((layerCandidates exCfg exInv 3 100).filter
        (fun c => c.perfectlyDivisible) ≠ [] →
      selectTier (layerCandidates exCfg exInv 3 100) =
        (layerCandidates exCfg exInv 3 100).filter
          (fun c => c.perfectlyDivisible)) ∧
    ((layerCandidates exCfg exInv 3 100).filter
        (fun c => c.perfectlyDivisible) = [] →
      (layerCandidates exCfg exInv 3 100).filter (fun c => c.perfectFit) ≠ [] →
      selectTier (layerCandidates exCfg exInv 3 100) =
        (layerCandidates exCfg exInv 3 100).filter (fun c => c.perfectFit)) ∧
    ((layerCandidates exCfg exInv 3 100).filter
        (fun c => c.perfectlyDivisible) = [] →
      (layerCandidates exCfg exInv 3 100).filter (fun c => c.perfectFit) = [] →
      selectTier (layerCandidates exCfg exInv 3 100) =
        layerCandidates exCfg exInv 3 100) :=
  C5_layer_selection_tier exCfg exInv 3 100 exSel (by with_unfolding_all decide)

/-- Configuration of the cyclic-comparator counterexample: a 2×2 pallet,
max height 2, an ample weight budget. -/
def cfg5 : Config := ⟨⟨2, 2⟩, 2, 1000000, .lbs⟩

/-- The common waste volume `R1·h1` of the first counterexample SKU. -/
def w5waste : ℚ := 2501 / 2500000

/-- Residual area of the second counterexample SKU, tuned so its waste
exceeds the first one's by exactly 9e-7 (a waste tie). -/
def R2v : ℚ := (w5waste + 9 / 10000000) / (10018 / 10000)

/-- Residual area of the third counterexample SKU, waste 1.8e-6 above the
first one's (decisively more waste). -/
def R3v : ℚ := (w5waste + 18 / 10000000) / (10032 / 10000)

/-- First counterexample SKU: height 1.0004, near-full footprint. -/
def sku5a : SKU := ⟨"S1", "S1", 2, 2 - (1 / 1000) / 2, 10004 / 10000, 1⟩

/-- Second counterexample SKU: height 1.0018 (ties the first on efficiency
and waste, beats it on height). -/
def sku5b : SKU := ⟨"S2", "S2", 2, 2 - R2v / 2, 10018 / 10000, 1⟩

/-- Third counterexample SKU: height 1.0032 (beats the second on height,
loses to the first on waste). -/
def sku5c : SKU := ⟨"S3", "S3", 2, 2 - R3v / 2, 10032 / 10000, 1⟩

/-- The counterexample order: one unit of each SKU. -/
def items5 : List OrderItem :=
  [⟨sku5a, 1, .each⟩, ⟨sku5b, 1, .each⟩, ⟨sku5c, 1, .each⟩]

/-- Its inventory after setup. -/
def inv5 : List PackingItem := (initializeInventory cfg5 items5).toOption.getD []

/-- The layer candidates generated on this input. -/
def cands5 : List LayerCandidate := layerCandidates cfg5 inv5 2 1000

/-- C5 (counterexample): on this input both special tiers are empty, so the
selection runs over the full candidate list; the selector returns a
candidate, yet another candidate of the same tier strictly precedes the
returned one under the comparator — the returned candidate is not maximal,
refuting the claim as stated.  (In fact the comparator is cyclic on three
of these candidates, so no candidate is maximal.) -/
theorem C5_counterexample :
    cands5.filter (fun c => c.perfectlyDivisible) = [] ∧
    cands5.filter (fun c => c.perfectFit) = [] ∧
    (selectNextLayer cfg5 inv5 2 1000).map
      (fun c => cands5.any (fun d => candBefore d c)) = some true := by
  with_unfolding_all decide

/-! ## C6 — skuExceedsPallet fail-fast and orientation generation -/

/-- C6: when some positive-quantity order line's SKU admits no viable
rotation, `optimize` fails with `skuExceedsPallet` naming an offending SKU
(the first such line) for every fuel value — the failure comes from
inventory setup and does not depend on the packing loops — and
`generateOrientationOptions` is exactly the six permutations filtered by
the height and footprint checks, deduplicated by dimensions rounded to
three decimal places, in first-occurrence order. -/
theorem C6_sku_exceeds_pallet (cfg : Config) (items : List OrderItem)
    (sku : SKU)
    (h : ∃ line ∈ items, 0 < line.quantity ∧
          generateOrientationOptions cfg line.sku = []) :
    (∃ line ∈ items, 0 < line.quantity ∧
        generateOrientationOptions cfg line.sku = [] ∧
        ∀ fuel, optimize cfg items fuel =
          .error (.skuExceedsPallet line.sku.id)) ∧
    generateOrientationOptions cfg sku =
      dedupByKey3 ((permsOf sku).filter (passesFilters cfg)) [] := by
  refine ⟨?_, genOrientGo_eq cfg (permsOf sku) []⟩
  obtain ⟨line, hmem, hpos, hgen, herr⟩ := initializeInventory_offender h
  refine ⟨line, hmem, hpos, hgen, fun fuel => ?_⟩
  rw [optimize, herr]

/-- A SKU too large for the example pallet in every rotation. -/
def skuBig : SKU := ⟨"B", "B", 5, 5, 5, 1⟩

/-- An order consisting of one unit of the oversized SKU. -/
def items6 : List OrderItem := [⟨skuBig, 1, .each⟩]

theorem C6_sku_exceeds_pallet_witness :
    (∃ line ∈ items6, 0 < line.quantity ∧
        generateOrientationOptions exCfg line.sku = [] ∧
        ∀ fuel, optimize exCfg items6 fuel =
          .error (.skuExceedsPallet line.sku.id)) ∧
    generateOrientationOptions exCfg skuBig =
      dedupByKey3 ((permsOf skuBig).filter (passesFilters exCfg)) [] :=
  C6_sku_exceeds_pallet exCfg items6 skuBig (by with_unfolding_all decide)

/-! ## C7 — unpackableRemainder and atomicity of failure -/

/-- C7: whenever the pallet builder returns an empty pallet while some
inventory item still has remaining units, the builder has not touched the
inventory, and the optimizer loop fails with `unpackableRemainder` naming
the first inventory item with remaining units; in particular the run
returns no pallet list at all. -/
theorem C7_unpackable_remainder (cfg : Config) (inv inv' : List PackingItem)
    (fuel : ℕ) (pid : ℤ) (pallet : Pallet)
    (hrem : hasRemaining inv = true)
    (hbuild : buildPallet cfg inv pid fuel = some (pallet, inv'))
    (hempty : pallet.layers = []) :
    inv' = inv ∧
    ∃ item, getFirstRemainingItem inv' = some item ∧ 0 < item.remaining ∧
      item ∈ inv' ∧
      optimizeLoop cfg (fuel + 1) inv pid =
        .error (.unpackableRemainder (some item.sku.id)) ∧
      ∀ ps, optimizeLoop cfg (fuel + 1) inv pid ≠ .ok ps := by
  obtain ⟨extra, hext, hinv⟩ :=
    buildLoop_prefix cfg pid fuel [] 0 0 0 inv pallet inv' hbuild
  have hextra : extra = [] := by
    rw [hempty] at hext
    simpa using hext.symm
  have hinv' : inv' = inv := hinv hextra
  subst hinv'
  obtain ⟨item, hfind, hpos, hmem⟩ := hasRemaining_find hrem
  have herr : optimizeLoop cfg (fuel + 1) inv' pid =
      .error (.unpackableRemainder (some item.sku.id)) := by
    rw [optimizeLoop, if_pos hrem, hbuild]
    have hred : (if pallet.layers = [] then
          (Except.error (PackError.unpackableRemainder
            ((getFirstRemainingItem inv').map fun item => item.sku.id)) :
            Except PackError (List Pallet))
        else (optimizeLoop cfg fuel inv' (pid + 1)).map (pallet :: ·)) =
        .error (.unpackableRemainder (some item.sku.id)) := by
      rw [if_pos hempty, hfind]
      rfl
    exact hred
  refine ⟨rfl, item, hfind, hpos, hmem, herr, fun ps hok => ?_⟩
  rw [herr] at hok
  cases hok

/-- Configuration whose weight budget is below any single unit. -/
def cfg7 : Config := ⟨⟨2, 2⟩, 3, 1, .lbs⟩

/-- A SKU that fits geometrically but weighs ten times the budget. -/
def sku7 : SKU := ⟨"H", "H", 1, 1, 1, 10⟩

/-- The order for the C7 witness. -/
def items7 : List OrderItem := [⟨sku7, 1, .each⟩]

/-- Its inventory after setup. -/
def inv7 : List PackingItem := (initializeInventory cfg7 items7).toOption.getD []

/-- The (empty) pallet and leftover inventory the builder produces. -/
def res7 : Pallet × List PackingItem := (buildPallet cfg7 inv7 1 0).getD default

theorem C7_unpackable_remainder_witness :
    res7.2 = inv7 ∧
    ∃ item, getFirstRemainingItem res7.2 = some item ∧ 0 < item.remaining ∧
      item ∈ res7.2 ∧
      optimizeLoop cfg7 (0 + 1) inv7 1 =
        .error (.unpackableRemainder (some item.sku.id)) ∧
      ∀ ps, optimizeLoop cfg7 (0 + 1) inv7 1 ≠ .ok ps :=
  C7_unpackable_remainder cfg7 inv7 res7.2 0 1 res7.1
    (by with_unfolding_all decide) (by with_unfolding_all decide)
    (by with_unfolding_all decide)

/-! ## C8 — freight classification -/

/-- The specification's density-threshold table, highest density first,
paired with the class names. -/
def freightThresholds : List (ℚ × String) :=
  [(50, "Class 50"), (35, "Class 55"), (30, "Class 60"), (225 / 10, "Class 65"),
   (15, "Class 70"), (135 / 10, "Class 77.5"), (12, "Class 85"),
   (105 / 10, "Class 92.5"), (9, "Class 100"), (8, "Class 110"),
   (7, "Class 125"), (6, "Class 150"), (5, "Class 175"), (4, "Class 200"),
   (3, "Class 250"), (2, "Class 300"), (1, "Class 400")]

/-- First threshold of the table the density exceeds, defaulting to
Class 500. -/
def lookupClass (d : ℚ) : List (ℚ × String) → String
  | [] => "Class 500"
  | t :: rest => if t.1 < d then t.2 else lookupClass d rest

/-- Freight class as worded by the specification: pound-normalise the
weight (× 2.20462 when the configured unit is kg), form the density over
the epsilon-floored volume in cubic feet, and map it through the ordered
threshold table. -/
def freightClassSpec (cfg : Config) (weight height : ℚ) : String :=
  let weightLbs :=
    if cfg.weightUnit = .kg then weight * (220462 / 100000) else weight
  let density :=
    weightLbs /
      (cfg.palletSize.length * cfg.palletSize.width * max height EPSILON / 1728)
  lookupClass density freightThresholds

theorem calculateFreightClass_eq_spec (cfg : Config) (weight height : ℚ) :
    calculateFreightClass cfg weight height =
      freightClassSpec cfg weight height := by
  obtain ⟨ps, mh, mw, wu⟩ := cfg
  cases wu <;> rfl

theorem freight_empty (cfg : Config) :
    calculateFreightClass cfg 0 0 = "Class 500" := by
  obtain ⟨ps, mh, mw, wu⟩ := cfg
  cases wu <;> norm_num [calculateFreightClass, toBaseWeight]

/-- C8: every pallet of a successful run carries the freight class computed
from its own final weight and height; that computation agrees everywhere
with the specification's formula — pound conversion × 2.20462 for kg,
density over the epsilon-floored volume in cubic feet, first exceeded
threshold of the fixed table — and the empty pallet (height 0, weight 0)
receives the well-defined "Class 500" instead of a division by zero. -/
theorem C8_freight_class (cfg : Config) (items : List OrderItem) (fuel : ℕ)
    (pallets : List Pallet) (hval : cfg.valid)
    (hok : optimize cfg items fuel = .ok pallets) :
    (∀ p ∈ pallets,
        p.freightClass = calculateFreightClass cfg p.totalWeight p.totalHeight) ∧
    (∀ w h, calculateFreightClass cfg w h = freightClassSpec cfg w h) ∧
    calculateFreightClass cfg 0 0 = "Class 500" := by
  obtain ⟨hgood, _⟩ := optimize_ok_master hval hok
  exact ⟨fun p hp => ((hgood p hp).2.2).1,
    fun w h => calculateFreightClass_eq_spec cfg w h, freight_empty cfg⟩

theorem C8_freight_class_witness :
    (∀ p ∈ exPallets,
        p.freightClass =
          calculateFreightClass exCfg p.totalWeight p.totalHeight) ∧
    (∀ w h, calculateFreightClass exCfg w h = freightClassSpec exCfg w h) ∧
    calculateFreightClass exCfg 0 0 = "Class 500" :=
  C8_freight_class exCfg exItems 5 exPallets (by with_unfolding_all decide)
    (by with_unfolding_all decide)

/-! ## C9 — zero and negative quantity lines are inert -/

/-- C9: the optimizer's result — successful pallet list and error alike —
is unchanged when all order lines with non-positive quantity are removed:
such lines are skipped by inventory setup before anything else looks at
them, so they raise no error and contribute no units to any pallet. -/
theorem C9_nonpositive_inert (cfg : Config) (items : List OrderItem)
    (fuel : ℕ) :
    optimize cfg items fuel =
      optimize cfg (items.filter fun it => decide (0 < it.quantity)) fuel := by
  unfold optimize
  rw [← initializeInventory_filter]

/-! ## C10 — weightless SKUs are never placed -/

/-- C10 (amended): a unit whose weight normalises to a non-positive number
of pounds is never placed — every placed item of every successful run has
positive pound-normalised weight — and an order containing a positive line
with such a SKU never succeeds at all; but the failure need not be the
empty-pallet error: inventory setup can fail first with `skuExceedsPallet`
on another line (see the counterexample). -/
theorem C10_weightless (cfg : Config) (items : List OrderItem) (fuel : ℕ)
    (hval : cfg.valid) :
    (∀ ps, optimize cfg items fuel = .ok ps →
      ∀ p ∈ ps, ∀ L ∈ p.layers, ∀ it ∈ L.items,
        0 < toBaseWeight cfg it.sku.weight) ∧
    (∀ line ∈ items, 0 < line.quantity →
      toBaseWeight cfg line.sku.weight ≤ 0 →
      ∀ ps, optimize cfg items fuel ≠ .ok ps) := by
  constructor
  · intro ps hok p hp L hL it hit
    obtain ⟨hgood, -⟩ := optimize_ok_master hval hok
    exact (((hgood p hp).2.2.2.2 L hL).2 it hit).2.2.2.2.2.1
  · intro line hline hpos hwle ps hok
    unfold optimize at hok
    cases hinit : initializeInventory cfg items with
    | error e => rw [hinit] at hok; cases hok
    | ok inv =>
      rw [hinit] at hok
      obtain ⟨hiok, hrempos, hreq, hskus⟩ := initializeInventory_ok hinit
      have hnd : NodupIds inv := optimizeLoop_ok_nodupIds hok hrempos
      obtain ⟨hgood, hcons⟩ := optimizeLoop_spec cfg (inv.map fun e => e.sku)
        fuel inv 1 ps hok (fun e he => List.mem_map_of_mem _ he) hiok
        (fun e he => le_of_lt (hrempos e he)) hnd hval
      obtain ⟨e, heinv, hesku, herem⟩ := initializeInventory_mem hinit hline hpos
      have hepos : 0 < e.remaining := by rw [herem]; exact hpos
      have h1 : 0 < remTotal inv e.sku.id :=
        lt_of_lt_of_le hepos
          (remTotal_ge_mem heinv fun x hx => le_of_lt (hrempos x hx))
      have h2 : palletsQty ps e.sku.id ≠ 0 := by
        rw [hcons e.sku.id]
        omega
      have h3 : ∃ p ∈ ps, ∃ L ∈ p.layers, ∃ it ∈ L.items,
          it.sku.id = e.sku.id := by
        by_contra hn
        push_neg at hn
        exact h2 (palletsQty_zero fun p hp L hL it hit => hn p hp L hL it hit)
      obtain ⟨p, hp, L, hL, it, hit, hid⟩ := h3
      obtain ⟨-, -, -, -, -, hwpos, hskumem, -⟩ :=
        ((hgood p hp).2.2.2.2 L hL).2 it hit
      obtain ⟨e', he'inv, he'sku⟩ := List.mem_map.mp hskumem
      have hnd' : (inv.map fun x => x.sku.id).Nodup := hnd
      have hee : e' = e :=
        List.inj_on_of_nodup_map hnd' he'inv heinv (by rw [he'sku, hid])
      have hit_sku : it.sku = line.sku := by rw [← he'sku, hee, hesku]
      rw [hit_sku] at hwpos
      exact absurd hwpos (not_lt.mpr hwle)

/-- Weightless SKU that fits the example pallet in its given orientation. -/
def sku10 : SKU := ⟨"A", "A", 1, 1, 1, 0⟩

/-- An order with a weightless packable line followed by an oversized
line. -/
def items10 : List OrderItem := [⟨sku10, 1, .each⟩, ⟨skuBig, 1, .each⟩]

/-- C10 (counterexample): an input satisfying the claim's premise — a
positive-quantity line with a weightless SKU whose orientation set is
non-empty — on which `optimize` does not raise the empty-pallet error:
inventory setup fails first, with `skuExceedsPallet` on the oversized
second line. -/
theorem C10_counterexample :
    (∃ line ∈ items10, 0 < line.quantity ∧
        toBaseWeight exCfg line.sku.weight ≤ 0 ∧
        generateOrientationOptions exCfg line.sku ≠ []) ∧
    optimize exCfg items10 5 = .error (.skuExceedsPallet "B") := by
  with_unfolding_all decide

theorem C10_weightless_witness :
    (∀ ps, optimize exCfg exItems 5 = .ok ps →
      ∀ p ∈ ps, ∀ L ∈ p.layers, ∀ it ∈ L.items,
        0 < toBaseWeight exCfg it.sku.weight) ∧
    (∀ line ∈ exItems, 0 < line.quantity →
      toBaseWeight exCfg line.sku.weight ≤ 0 →
      ∀ ps, optimize exCfg exItems 5 ≠ .ok ps) :=
  C10_weightless exCfg exItems 5 (by with_unfolding_all decide)



end PalletPlanner
